import Mathlib

/-!
Verification of the Chronodrachma consensus core.

The Go sources are embedded shallowly: machine integers become `Nat` with
explicit reduction modulo `2 ^ 64` (or `2 ^ 32`) wherever the Go code can
wrap, byte strings become `List Nat` with every element below 256, and
fallible operations return `Option` or a state paired with an optional
error.  SHA-256 (Go's `crypto/sha256`, used for block identity, transaction
ids and the test hasher) is implemented concretely so that whole chain
scenarios evaluate inside the kernel.
-/

namespace Chrd

/-! ## Bytes and fixed-width integers -/

/-- Big-endian byte encoding of `n` truncated to `k` bytes, most significant
byte first, mirroring `binary.BigEndian.PutUintNN`. -/
def beBytes : Nat → Nat → List Nat
  | 0, _ => []
  | k + 1, n => beBytes k (n / 256) ++ [n % 256]

/-- The uint64 modulus. -/
def U64 : Nat := 18446744073709551616

/-- The uint32 modulus. -/
def U32 : Nat := 4294967296

/-- Go's conversion of an `int64` to a `uint64`: reduction modulo `2 ^ 64`
into the range `[0, 2 ^ 64)`. -/
def u64OfInt (i : Int) : Nat := (i % (U64 : Int)).toNat

/-- Go's wrapping `int64` subtraction, used for timestamp differences. -/
def i64Sub (a b : Int) : Int := ((a - b + 9223372036854775808) % (U64 : Int)) - 9223372036854775808

/-! ## SHA-256 (crypto/sha256), over byte lists -/

namespace Sha256

/-- The 64 round constants, written in decimal (the first 32 bits of the
fractional parts of the cube roots of the first 64 primes). -/
def K : List Nat :=
  [1116352408, 1899447441, 3049323471, 3921009573, 961987163, 1508970993,
   2453635748, 2870763221, 3624381080, 310598401, 607225278, 1426881987,
   1925078388, 2162078206, 2614888103, 3248222580, 3835390401, 4022224774,
   264347078, 604807628, 770255983, 1249150122, 1555081692, 1996064986,
   2554220882, 2821834349, 2952996808, 3210313671, 3336571891, 3584528711,
   113926993, 338241895, 666307205, 773529912, 1294757372, 1396182291,
   1695183700, 1986661051, 2177026350, 2456956037, 2730485921, 2820302411,
   3259730800, 3345764771, 3516065817, 3600352804, 4094571909, 275423344,
   430227734, 506948616, 659060556, 883997877, 958139571, 1322822218,
   1537002063, 1747873779, 1955562222, 2024104815, 2227730452, 2361852424,
   2428436474, 2756734187, 3204031479, 3329325298]

/-- Rotate a 32-bit word right by `n` bits. -/
def rotr (n x : Nat) : Nat := ((x >>> n) ||| (x <<< (32 - n))) % U32

/-- Message-schedule sigma-0. -/
def s0 (x : Nat) : Nat := (rotr 7 x) ^^^ (rotr 18 x) ^^^ (x >>> 3)

/-- Message-schedule sigma-1. -/
def s1 (x : Nat) : Nat := (rotr 17 x) ^^^ (rotr 19 x) ^^^ (x >>> 10)

/-- Round big-sigma-0. -/
def S0 (x : Nat) : Nat := (rotr 2 x) ^^^ (rotr 13 x) ^^^ (rotr 22 x)

/-- Round big-sigma-1. -/
def S1 (x : Nat) : Nat := (rotr 6 x) ^^^ (rotr 11 x) ^^^ (rotr 25 x)

/-- Group a byte list into big-endian 32-bit words. -/
def toWords : List Nat → List Nat
  | b0 :: b1 :: b2 :: b3 :: rest =>
      (((b0 * 256 + b1) * 256 + b2) * 256 + b3) :: toWords rest
  | _ => []

/-- Extend the 16 chunk words to the 64-entry message schedule. -/
def schedule (w16 : List Nat) : List Nat :=
  (List.range 48).foldl
    (fun ws _ =>
      let n := ws.length
      ws ++ [(ws.getD (n - 16) 0 + s0 (ws.getD (n - 15) 0) +
              ws.getD (n - 7) 0 + s1 (ws.getD (n - 2) 0)) % U32])
    w16

/-- The eight working variables of the compression loop. -/
structure Regs where
  a : Nat
  b : Nat
  c : Nat
  d : Nat
  e : Nat
  f : Nat
  g : Nat
  h : Nat
deriving Repr, DecidableEq

/-- One compression round. -/
def round (w k : Nat) (r : Regs) : Regs :=
  let ch := (r.e &&& r.f) ^^^ ((r.e ^^^ 0xffffffff) &&& r.g)
  let t1 := (r.h + S1 r.e + ch + k + w) % U32
  let maj := (r.a &&& r.b) ^^^ (r.a &&& r.c) ^^^ (r.b &&& r.c)
  let t2 := (S0 r.a + maj) % U32
  { a := (t1 + t2) % U32, b := r.a, c := r.b, d := r.c,
    e := (r.d + t1) % U32, f := r.e, g := r.f, h := r.g }

/-- Compress one 64-byte chunk into the running state. -/
def compress (st : List Nat) (chunk : List Nat) : List Nat :=
  let w := schedule (toWords chunk)
  let init : Regs :=
    { a := st.getD 0 0, b := st.getD 1 0, c := st.getD 2 0, d := st.getD 3 0,
      e := st.getD 4 0, f := st.getD 5 0, g := st.getD 6 0, h := st.getD 7 0 }
  let r := (List.range 64).foldl (fun r i => round (w.getD i 0) (K.getD i 0) r) init
  [(st.getD 0 0 + r.a) % U32, (st.getD 1 0 + r.b) % U32,
   (st.getD 2 0 + r.c) % U32, (st.getD 3 0 + r.d) % U32,
   (st.getD 4 0 + r.e) % U32, (st.getD 5 0 + r.f) % U32,
   (st.getD 6 0 + r.g) % U32, (st.getD 7 0 + r.h) % U32]

/-- Fold the compression over successive 64-byte chunks; the fuel bounds the
number of chunks and keeps the recursion structural. -/
def chunksGo : Nat → List Nat → List Nat → List Nat
  | 0, st, _ => st
  | _ + 1, st, [] => st
  | fuel + 1, st, l => chunksGo fuel (compress st (l.take 64)) (l.drop 64)

/-- Split a padded message into 64-byte chunks and fold the compression. -/
def chunks (st : List Nat) (l : List Nat) : List Nat :=
  chunksGo (l.length + 1) st l

/-- SHA-256 padding: a 0x80 byte, zeros to 56 mod 64, then the bit length
as eight big-endian bytes. -/
def pad (msg : List Nat) : List Nat :=
  let l := msg.length
  msg ++ [0x80] ++ List.replicate ((64 - ((l + 9) % 64)) % 64) 0 ++ beBytes 8 (8 * l)

/-- The SHA-256 initial state. -/
def H0 : List Nat :=
  [1779033703, 3144134277, 1013904242, 2773480762,
   1359893119, 2600822924, 528734635, 1541459225]

/-- SHA-256 of a byte list, as 32 digest bytes. -/
def sha256 (msg : List Nat) : List Nat :=
  ((chunks H0 (pad msg)).map (beBytes 4)).flatten

end Sha256

/-! ## Core types (pkg/core/types) -/

/-- A 32-byte hash, as its digest bytes. -/
abbrev Hash : Type := List Nat

/-- The all-zero sentinel hash (`types.ZeroHash`). -/
def zeroHash : Hash := List.replicate 32 0

/-- Compute SHA-256 of arbitrary data (`types.ComputeSHA256`). -/
def computeSHA256 (data : List Nat) : Hash := Sha256.sha256 data

/-- Transaction kind (`types.TxType`): 0 is coinbase, 1 is transfer. -/
inductive TxType where
  | coinbase
  | transfer
deriving DecidableEq, Repr

/-- The wire byte of a transaction type. -/
def TxType.toByte : TxType → Nat
  | .coinbase => 0
  | .transfer => 1

/-- A transaction (`types.Transaction`).  `fromAddr`/`toAddr` stand for the
Go fields `From`/`To`; the timestamp is the Unix-seconds value the Go code
extracts with `Timestamp.Unix()`. -/
structure Transaction where
  id : Hash
  type : TxType
  timestamp : Int
  fromAddr : Hash
  toAddr : Hash
  amount : Nat
  fee : Nat
  nonce : Nat
  signature : List Nat
deriving DecidableEq, Repr

/-- A placeholder transaction for total `headD`-style access on lists that
are provably nonempty at the point of use. -/
def dummyTx : Transaction :=
  { id := zeroHash, type := .coinbase, timestamp := 0, fromAddr := zeroHash,
    toAddr := zeroHash, amount := 0, fee := 0, nonce := 0, signature := [] }

/-- The deterministic 97-byte pre-id encoding
(`Transaction.Serialize`): type, timestamp, from, to, amount, fee, nonce,
all multi-byte fields big-endian. -/
def Transaction.serialize (tx : Transaction) : List Nat :=
  [tx.type.toByte] ++ beBytes 8 (u64OfInt tx.timestamp) ++
  tx.fromAddr ++ tx.toAddr ++
  beBytes 8 tx.amount ++ beBytes 8 tx.fee ++ beBytes 8 tx.nonce

/-- SHA-256 of the serialized fields (`Transaction.ComputeID`). -/
def Transaction.computeID (tx : Transaction) : Hash :=
  computeSHA256 tx.serialize

/-- A block header (`types.BlockHeader`). -/
structure BlockHeader where
  version : Nat
  height : Nat
  timestamp : Int
  prevBlockHash : Hash
  merkleRoot : Hash
  difficulty : Nat
  nonce : Nat
deriving DecidableEq, Repr

/-- The deterministic 100-byte header encoding (`BlockHeader.Serialize`). -/
def BlockHeader.serialize (h : BlockHeader) : List Nat :=
  beBytes 4 h.version ++ beBytes 8 h.height ++ beBytes 8 (u64OfInt h.timestamp) ++
  h.prevBlockHash ++ h.merkleRoot ++ beBytes 8 h.difficulty ++ beBytes 8 h.nonce

/-- A block (`types.Block`). -/
structure Block where
  header : BlockHeader
  transactions : List Transaction
  hash : Hash
  powHash : Hash
deriving DecidableEq, Repr

/-- SHA-256 of the serialized header (`Block.ComputeHash`). -/
def Block.computeHash (b : Block) : Hash :=
  computeSHA256 b.header.serialize

/-- One pairing level of the merkle tree: adjacent ids are hashed together,
an odd tail element is paired with itself. -/
def merkleLevel : List Hash → List Hash
  | x :: y :: rest => computeSHA256 (x ++ y) :: merkleLevel rest
  | [x] => [computeSHA256 (x ++ x)]
  | [] => []

/-- Iterate `merkleLevel` until one hash remains; the fuel bounds the number
of levels (each level at least halves a multi-element list). -/
def merkleLoop : Nat → List Hash → List Hash
  | 0, hs => hs
  | fuel + 1, hs => if hs.length > 1 then merkleLoop fuel (merkleLevel hs) else hs

/-- The SHA-256 merkle root over transaction ids
(`types.ComputeMerkleRoot`); the empty list yields the zero hash. -/
def computeMerkleRoot (txs : List Transaction) : Hash :=
  if txs.length = 0 then zeroHash
  else (merkleLoop txs.length (txs.map (·.id))).getD 0 zeroHash

/-- Smallest units per coin (`types.ChronosPerCHRD`). -/
def chronosPerCHRD : Nat := 100000000

/-- The fixed reward (`types.BlockReward`), 1 coin. -/
def blockRewardConst : Nat := chronosPerCHRD

/-- Mining reward at a height (`blockchain.BlockReward`): constant. -/
def blockReward (_height : Nat) : Nat := blockRewardConst

/-! ## Consensus (pkg/core/consensus) -/

/-- The test/production-lite PoW hasher (`consensus.SHA256Hasher.Hash`):
double SHA-256 of the header bytes.  The whole chain model is instantiated
with this in-repository hasher. -/
def sha256HasherHash (headerBytes : List Nat) : Hash :=
  computeSHA256 (computeSHA256 headerBytes)

/-- Leading-zero-bits difficulty check (`consensus.MeetsDifficulty`). -/
def meetsDifficulty (powHash : Hash) (difficulty : Nat) : Bool :=
  if difficulty = 0 then true
  else if difficulty > 256 then false
  else
    let fullBytes := difficulty / 8
    let remainBits := difficulty % 8
    ((List.range fullBytes).all fun i => powHash.getD i 0 == 0) &&
    (if remainBits > 0 && decide (fullBytes < 32) then
      (powHash.getD fullBytes 0) &&& ((0xff <<< (8 - remainBits)) % 256) == 0
    else true)

/-- Target seconds between blocks (`consensus.TargetBlockTime`). -/
def targetBlockTime : Nat := 3600

/-- Retarget window in blocks (`consensus.DifficultyAdjustmentWindow`). -/
def difficultyAdjustmentWindow : Nat := 24

/-- Difficulty retarget (`consensus.CalcNextRequiredDifficulty`).  `none`
propagates a failed ancestor lookup.  The `big.Int` arithmetic of the source
is exact, so it is plain `Nat` arithmetic here; the timestamp difference is
the Go `int64` subtraction. -/
def calcNextRequiredDifficulty (prevBlock : Option Block)
    (getBlockByHeight : Nat → Option Block) : Option Nat :=
  match prevBlock with
  | none => some 1
  | some prev =>
    if prev.header.height < difficultyAdjustmentWindow then
      some prev.header.difficulty
    else
      match getBlockByHeight (prev.header.height - difficultyAdjustmentWindow + 1) with
      | none => none
      | some firstBlock =>
        let actualTime0 : Int := i64Sub prev.header.timestamp firstBlock.header.timestamp
        let actualTime : Int := if actualTime0 ≤ 0 then 1 else actualTime0
        let targetTime : Nat := targetBlockTime * difficultyAdjustmentWindow
        let newDiff : Nat := prev.header.difficulty * targetTime / actualTime.toNat
        if newDiff < 1 then some 1
        else if newDiff > U64 - 1 then some (U64 - 1)
        else some newDiff

/-! ## Block validation (pkg/core/blockchain) -/

/-- Coinbase maturity depth in blocks (`blockchain.CoinbaseMaturity`). -/
def coinbaseMaturity : Nat := 24

/-- Spendability of a height-`outputHeight` output at `currentHeight`
(`blockchain.IsMature`). -/
def isMature (outputHeight currentHeight : Nat) : Bool :=
  if currentHeight < outputHeight then false
  else coinbaseMaturity ≤ currentHeight - outputHeight

/-- Seconds a timestamp may run ahead of local time
(`blockchain.MaxFutureBlockTime`, two hours). -/
def maxFutureBlockTime : Int := 7200

/-- The distinct validation failures of the block validator. -/
inductive ValErr where
  | invalidHeight
  | invalidPrevHash
  | timestampTooOld
  | timestampTooFar
  | invalidMerkleRoot
  | invalidBlockHash
  | powHashMismatch
  | invalidPoW
  | invalidCoinbasePos
  | noCoinbase
  | invalidCoinbaseAmt
deriving DecidableEq, Repr

/-- The coinbase scan of `validateBlockInternal`: walk the transactions with
their indices, fail (`none`) on a coinbase outside index 0, and otherwise
count the coinbases. -/
def countCoinbase : List Transaction → Nat → Option Nat
  | [], _ => some 0
  | tx :: rest, i =>
    if tx.type == .coinbase then
      if i ≠ 0 then none
      else (countCoinbase rest (i + 1)).map (· + 1)
    else countCoinbase rest (i + 1)

/-- Internal checks shared by genesis and non-genesis validation
(`blockchain.validateBlockInternal`), with the hasher fixed to the repo's
double-SHA-256 `SHA256Hasher`. -/
def validateBlockInternal (b : Block) : Option ValErr :=
  if b.header.merkleRoot ≠ computeMerkleRoot b.transactions then some .invalidMerkleRoot
  else if b.hash ≠ b.computeHash then some .invalidBlockHash
  else if b.powHash ≠ sha256HasherHash b.header.serialize then some .powHashMismatch
  else if ¬ meetsDifficulty b.powHash b.header.difficulty then some .invalidPoW
  else
    match countCoinbase b.transactions 0 with
    | none => some .invalidCoinbasePos
    | some c =>
      if c ≠ 1 then some .noCoinbase
      else if (b.transactions.headD dummyTx).amount ≠ blockReward b.header.height then
        some .invalidCoinbaseAmt
      else none

/-- Full contextual validation against the parent
(`blockchain.ValidateBlock`); `now` stands for the Go wall clock read. -/
def validateBlock (now : Int) (b parent : Block) : Option ValErr :=
  if b.header.height ≠ parent.header.height + 1 then some .invalidHeight
  else if b.header.prevBlockHash ≠ parent.hash then some .invalidPrevHash
  else if ¬ (parent.header.timestamp < b.header.timestamp) then some .timestampTooOld
  else if now + maxFutureBlockTime < b.header.timestamp then some .timestampTooFar
  else validateBlockInternal b

/-- Genesis well-formedness (`blockchain.ValidateGenesis`). -/
def validateGenesis (genesis : Block) : Option ValErr :=
  if genesis.header.height ≠ 0 then some .invalidHeight
  else if genesis.header.prevBlockHash ≠ zeroHash then some .invalidPrevHash
  else validateBlockInternal genesis

/-! ## Chain state (blockchain.Chain backed by BlockStore)

The BadgerDB store becomes four association lists with insert-by-prepend
(a later binding shadows an earlier one, like a key-value overwrite); the
engine's lock discipline is irrelevant to the sequential semantics modelled
here.  `u64add`/`u64sub` are Go's wrapping `uint64` operations. -/

/-- Wrapping uint64 addition. -/
def u64add (a b : Nat) : Nat := (a + b) % U64

/-- Wrapping uint64 subtraction (operands below `2 ^ 64` in Go). -/
def u64sub (a b : Nat) : Nat := (a % U64 + (U64 - b % U64)) % U64

/-- The chain plus its persistent store and the attached mempool's map. -/
structure ChainState where
  blocks : List (Hash × Block)
  canonical : List (Nat × Hash)
  headHash : Option Hash
  cdf : List (Hash × Nat)
  tip : Option Block
  pool : Option (List Transaction)
deriving Repr, DecidableEq

/-- The state of a freshly opened node with an empty store. -/
def emptyState : ChainState :=
  { blocks := [], canonical := [], headHash := none, cdf := [], tip := none, pool := none }

/-- Store read: block by hash (`BlockStore.GetBlockByHash`). -/
def lookupBlock (s : ChainState) (h : Hash) : Option Block := s.blocks.lookup h

/-- Store read: canonical hash at a height. -/
def lookupCanonical (s : ChainState) (height : Nat) : Option Hash := s.canonical.lookup height

/-- Store read: cumulative difficulty (`BlockStore.GetCumulativeDifficulty`). -/
def lookupCdf (s : ChainState) (h : Hash) : Option Nat := s.cdf.lookup h

/-- Store read: block by canonical height (`BlockStore.GetBlockByHeight`),
the two-step height-to-hash-to-block lookup. -/
def getBlockByHeightStore (s : ChainState) (height : Nat) : Option Block :=
  (lookupCanonical s height).bind (lookupBlock s)

/-- Store write: persist a block under its hash (`BlockStore.SaveBlock`). -/
def saveBlock (s : ChainState) (b : Block) : ChainState :=
  { s with blocks := (b.hash, b) :: s.blocks }

/-- Store write: map a height to a hash (`BlockStore.SetCanonical`). -/
def setCanonical (s : ChainState) (height : Nat) (h : Hash) : ChainState :=
  { s with canonical := (height, h) :: s.canonical }

/-- Store write: save a block's cumulative difficulty. -/
def saveCdf (s : ChainState) (h : Hash) (cd : Nat) : ChainState :=
  { s with cdf := (h, cd) :: s.cdf }

/-- Store write: set the head pointer (`BlockStore.SaveHead`). -/
def saveHead (s : ChainState) (h : Hash) : ChainState :=
  { s with headHash := some h }

/-- Attach a mempool (`Chain.SetMempool`). -/
def setMempool (s : ChainState) (p : List Transaction) : ChainState :=
  { s with pool := some p }

/-! ## Account-state derivation (Chain.GetAccountState) -/

/-- The tip height the derivation scans up to (0 when uninitialized). -/
def tipHeight (s : ChainState) : Nat :=
  match s.tip with
  | some t => t.header.height
  | none => 0

/-- Collect canonical blocks from height 0 upward, stopping at the first
height the store cannot resolve (the source breaks out of its loop on
`ErrBlockNotFoundInStore`); the fuel is the number of heights to visit. -/
def collectGo (s : ChainState) : Nat → Nat → List Block
  | 0, _ => []
  | fuel + 1, h =>
    match getBlockByHeightStore s h with
    | none => []
    | some b => b :: collectGo s fuel (h + 1)

/-- The canonical blocks from height 0 to the tip height, in height order. -/
def collectCanonical (s : ChainState) : List Block :=
  collectGo s (tipHeight s + 1) 0

/-- One transaction's effect on `(balance, nonce)` for `addr`
(the loop body of `Chain.GetAccountState`): credits for a matching
recipient — coinbase credits gated on maturity — then the debit and nonce
bump for a matching sender. -/
def applyTx (addr : Hash) (currentHeight blockHeight : Nat)
    (st : Nat × Nat) (tx : Transaction) : Nat × Nat :=
  let bal :=
    if tx.toAddr = addr then
      if tx.type = .coinbase then
        if isMature blockHeight currentHeight then u64add st.1 tx.amount else st.1
      else u64add st.1 tx.amount
    else st.1
  if tx.fromAddr = addr then (u64sub bal (u64add tx.amount tx.fee), st.2 + 1)
  else (bal, st.2)

/-- Replay one block's transactions in order. -/
def replayBlock (addr : Hash) (currentHeight : Nat) (st : Nat × Nat) (b : Block) : Nat × Nat :=
  b.transactions.foldl (applyTx addr currentHeight b.header.height) st

/-- Balance and confirmed nonce of an address by scanning the canonical
chain (`Chain.GetAccountState`). -/
def getAccountState (s : ChainState) (addr : Hash) : Nat × Nat :=
  (collectCanonical s).foldl (replayBlock addr (tipHeight s)) (0, 0)

/-! ## Mempool (pkg/mempool) -/

/-- The mempool's distinct rejection values. -/
inductive MempoolErr where
  | alreadyInMempool
  | invalidSignature
  | invalidNonce
  | insufficientFunds
deriving DecidableEq, Repr

/-- The pending-state accumulation over same-sender pool entries
(the loop inside `Mempool.AddTransaction`): the running
`(pendingNonce, pendingDebit)` pair, with Go's wrapping increments. -/
def pendingState (pool : List Transaction) (confirmedNonce : Nat) (sender : Hash) : Nat × Nat :=
  pool.foldl
    (fun st p =>
      if p.fromAddr = sender then
        ((if st.1 ≤ p.nonce then (p.nonce + 1) % U64 else st.1),
         u64add st.2 (u64add p.amount p.fee))
      else st)
    (confirmedNonce, 0)

/-- Mempool admission (`Mempool.AddTransaction`).  The Ed25519 primitive
(Go's `crypto/ed25519`, outside this repository) is the abstract `verify`
argument; the pool is the map contents in iteration order. -/
def addTransaction (verify : Hash → List Nat → List Nat → Bool)
    (s : ChainState) (pool : List Transaction) (tx : Transaction) :
    Except MempoolErr (List Transaction) :=
  if pool.any (fun p => p.id == tx.id) then .error .alreadyInMempool
  else if ¬ verify tx.fromAddr tx.serialize tx.signature then .error .invalidSignature
  else
    let bn := getAccountState s tx.fromAddr
    let ps := pendingState pool bn.2 tx.fromAddr
    if tx.nonce ≠ ps.1 then .error .invalidNonce
    else if bn.1 < u64add (u64add ps.2 tx.amount) tx.fee then .error .insufficientFunds
    else .ok (tx :: pool)

/-- The timestamp comparison of `Mempool.GetPendingTransactions`
(`Timestamp.Before` made reflexive for sorting). -/
def mempoolLe (a b : Transaction) : Prop := a.timestamp ≤ b.timestamp

instance : DecidableRel mempoolLe := fun a b => inferInstanceAs (Decidable (a.timestamp ≤ b.timestamp))

/-- Bounded listing (`Mempool.GetPendingTransactions`): sort the map's
entries by timestamp and take up to `maxCount`.  Go's `sort.Slice` promises
only sortedness with respect to the strict `Before` comparator and starts
from the randomized map iteration order; the insertion sort realizes one
admissible outcome for the given iteration order `pool`. -/
def getPendingTransactions (pool : List Transaction) (maxCount : Nat) : List Transaction :=
  (List.insertionSort mempoolLe pool).take maxCount

/-- Eviction by id (`Mempool.RemoveTransactions`). -/
def removeTransactions (pool : List Transaction) (txs : List Transaction) : List Transaction :=
  pool.filter (fun p => ¬ txs.any (fun t => t.id == p.id))

/-! ## Chain engine (Chain.InitGenesis, Chain.AddBlock, Chain.reorganize) -/

/-- The chain engine's distinct error values. -/
inductive ChainErr where
  | alreadyInitialized
  | notInitialized
  | parentNotFound
  | invalidHeight
  | ancestorLookupFailed
  | difficultyMismatch
  | validation (e : ValErr)
  | parentCdfMissing
  | tipCdfMissing
  | forkWalkFailed
deriving DecidableEq, Repr

/-- The descending walk of `Chain.GetAncestorAtHeight`: follow `prev_hash`
while the height exceeds the target.  The fuel bounds the walk; Go spins
forever on a store whose heights never reach the target, the model gives
up with `none` there. -/
def ancestorWalk (s : ChainState) : Nat → Block → Nat → Option Block
  | 0, curr, height => if height < curr.header.height then none else some curr
  | fuel + 1, curr, height =>
    if height < curr.header.height then
      match lookupBlock s curr.header.prevBlockHash with
      | none => none
      | some prev => ancestorWalk s fuel prev height
    else some curr

/-- Ancestor of `startBlock` at an exact height (`Chain.GetAncestorAtHeight`),
used by the difficulty retarget so side-chain retargets follow `prev_hash`
rather than the canonical index. -/
def getAncestorAtHeight (s : ChainState) (startBlock : Block) (height : Nat) : Option Block :=
  if startBlock.header.height < height then none
  else
    match ancestorWalk s (startBlock.header.height + 1) startBlock height with
    | none => none
    | some curr => if curr.header.height ≠ height then none else some curr

/-- The genesis block `Chain.InitGenesis` constructs: the single coinbase,
the height-0 header, and the computed identity and PoW hashes. -/
def genesisBlockOf (minerAddress : Hash) (difficulty : Nat) (timestamp : Int) : Block :=
  let cb0 : Transaction :=
    { id := zeroHash, type := .coinbase, timestamp := timestamp,
      fromAddr := zeroHash, toAddr := minerAddress,
      amount := blockRewardConst, fee := 0, nonce := 0, signature := [] }
  let coinbase := { cb0 with id := cb0.computeID }
  let txs := [coinbase]
  let header : BlockHeader :=
    { version := 1, height := 0, timestamp := timestamp,
      prevBlockHash := zeroHash, merkleRoot := computeMerkleRoot txs,
      difficulty := difficulty, nonce := 0 }
  let b0 : Block := { header := header, transactions := txs, hash := zeroHash, powHash := zeroHash }
  { b0 with hash := b0.computeHash, powHash := sha256HasherHash header.serialize }

/-- Genesis construction and installation (`Chain.InitGenesis`): build the
genesis block, validate it, then persist block, canonical entry,
cumulative difficulty and head. -/
def initGenesis (s : ChainState) (minerAddress : Hash) (difficulty : Nat)
    (timestamp : Int) : ChainState × Option ChainErr :=
  match s.tip with
  | some _ => (s, some .alreadyInitialized)
  | none =>
    let block := genesisBlockOf minerAddress difficulty timestamp
    match validateGenesis block with
    | some e => (s, some (.validation e))
    | none =>
      let s1 := saveHead (saveCdf (setCanonical (saveBlock s block) 0 block.hash)
                  block.hash difficulty) block.hash
      ({ s1 with tip := some block }, none)

/-- The height-synchronizing walk of `Chain.findForkPaths`: while the
current block is above the target height, record it and step to its parent
through the store; returns the reached block and the recorded blocks in
walk order.  Fuel as in `ancestorWalk`. -/
def walkDown (s : ChainState) : Nat → Block → Nat → List Block →
    Option (Block × List Block)
  | 0, curr, targetH, acc => if targetH < curr.header.height then none else some (curr, acc)
  | fuel + 1, curr, targetH, acc =>
    if targetH < curr.header.height then
      match lookupBlock s curr.header.prevBlockHash with
      | none => none
      | some prev => walkDown s fuel prev targetH (acc ++ [curr])
    else some (curr, acc)

/-- The joint backward walk of `Chain.findForkPaths`: step both sides until
the hashes agree, recording both. -/
def walkBoth (s : ChainState) : Nat → Block → Block → List Block → List Block →
    Option (Block × List Block × List Block)
  | 0, cn, co, accN, accO =>
    if cn.hash = co.hash then some (cn, accN, accO) else none
  | fuel + 1, cn, co, accN, accO =>
    if cn.hash = co.hash then some (cn, accN, accO)
    else
      match lookupBlock s cn.header.prevBlockHash, lookupBlock s co.header.prevBlockHash with
      | some pn, some po => walkBoth s fuel pn po (accN ++ [cn]) (accO ++ [co])
      | _, _ => none

/-- Fork-point discovery (`Chain.findForkPaths`): synchronize heights, walk
back together to the common ancestor, and return the ancestor with both
paths reversed into ascending order. -/
def findForkPaths (s : ChainState) (oldTip newTip : Block) :
    Option (Block × List Block × List Block) :=
  match walkDown s (newTip.header.height + 1) newTip oldTip.header.height [] with
  | none => none
  | some nw =>
    match walkDown s (oldTip.header.height + 1) oldTip nw.1.header.height [] with
    | none => none
    | some ow =>
      match walkBoth s (nw.1.header.height + 1) nw.1 ow.1 nw.2 ow.2 with
      | none => none
      | some r => some (r.1, r.2.1.reverse, r.2.2.reverse)

/-- A single mempool interaction of the reorganization path. -/
inductive PoolOp where
  | evict (txs : List Transaction)
  | tryAdd (tx : Transaction)
deriving DecidableEq, Repr

/-- Concatenate the transactions of a chain segment in block order (the
`append(..., b.Transactions...)` accumulation loops of `Chain.reorganize`). -/
def blocksTxs (chain : List Block) : List Transaction :=
  chain.foldl (fun acc b => acc ++ b.transactions) []

/-- The exact sequence of mempool calls `Chain.reorganize` issues (its step
5): one `RemoveTransactions` of every new-chain transaction, followed by a
best-effort `AddTransaction` for each old-chain transaction that is neither
a coinbase nor present among the new-chain transaction ids, in old-chain
order. -/
def reorgPoolOps (newChain oldChain : List Block) : List PoolOp :=
  let txsToReturn := blocksTxs oldChain
  let txsToRemove := blocksTxs newChain
  let newTxSet := txsToRemove.map (·.id)
  PoolOp.evict txsToRemove ::
    (txsToReturn.filter
      (fun tx => !(tx.type == TxType.coinbase) && !(newTxSet.contains tx.id))).map PoolOp.tryAdd

/-- The mempool call sequence as the specification describes it, for
comparison with `reorgPoolOps`: re-admissions first — against the set of
new-chain NON-coinbase ids — and the eviction of those ids after them. -/
def reorgPoolOpsClaim (newChain oldChain : List Block) : List PoolOp :=
  let newNonCoinbase := (blocksTxs newChain).filter (fun tx => !(tx.type == TxType.coinbase))
  let newIds := newNonCoinbase.map (·.id)
  ((blocksTxs oldChain).filter
      (fun tx => !(tx.type == TxType.coinbase) && !(newIds.contains tx.id))).map PoolOp.tryAdd
    ++ [PoolOp.evict newNonCoinbase]

/-- Apply one mempool call; re-admission failures are swallowed
(`_ = c.pool.AddTransaction(tx)`). -/
def applyPoolOp (verify : Hash → List Nat → List Nat → Bool) (s : ChainState)
    (pool : List Transaction) : PoolOp → List Transaction
  | .evict txs => removeTransactions pool txs
  | .tryAdd tx =>
    match addTransaction verify s pool tx with
    | .ok pool2 => pool2
    | .error _ => pool

/-- Chain reorganization (`Chain.reorganize`): find the fork paths, make the
new path canonical, move tip and head, then run the mempool calls of
`reorgPoolOps`.  (The Go `c.pool.AddTransaction` call back into the locked
chain is modelled sequentially.) -/
def reorganize (verify : Hash → List Nat → List Nat → Bool) (s : ChainState)
    (newTip : Block) : ChainState × Option ChainErr :=
  match s.tip with
  | none => (s, some .forkWalkFailed)
  | some oldTip =>
    match findForkPaths s oldTip newTip with
    | none => (s, some .forkWalkFailed)
    | some paths =>
      let newChain := paths.2.1
      let oldChain := paths.2.2
      let s1 := newChain.foldl (fun st b => setCanonical st b.header.height b.hash) s
      let s2 := saveHead { s1 with tip := some newTip } newTip.hash
      match s2.pool with
      | none => (s2, none)
      | some poolTxs =>
        let pool2 := (reorgPoolOps newChain oldChain).foldl (applyPoolOp verify s2) poolTxs
        ({ s2 with pool := some pool2 }, none)

/-- Block ingestion (`Chain.AddBlock`): idempotent on known hashes, then
parent lookup, height check, difficulty retarget check (walking ancestors
of the parent), contextual validation, cumulative-difficulty computation
and persistence, and finally the fork-choice rule with the direct-extension
tie-break. -/
def addBlock (verify : Hash → List Nat → List Nat → Bool) (now : Int)
    (s : ChainState) (block : Block) : ChainState × Option ChainErr :=
  match s.tip with
  | none => (s, some .notInitialized)
  | some tip =>
    if (lookupBlock s block.hash).isSome then (s, none)
    else
      match lookupBlock s block.header.prevBlockHash with
      | none => (s, some .parentNotFound)
      | some parent =>
        if block.header.height ≠ parent.header.height + 1 then (s, some .invalidHeight)
        else
          match calcNextRequiredDifficulty (some parent) (getAncestorAtHeight s parent) with
          | none => (s, some .ancestorLookupFailed)
          | some requiredDiff =>
            if block.header.difficulty ≠ requiredDiff then (s, some .difficultyMismatch)
            else
              match validateBlock now block parent with
              | some e => (s, some (.validation e))
              | none =>
                match lookupCdf s parent.hash with
                | none => (s, some .parentCdfMissing)
                | some parentCDF =>
                  let newCDF := u64add parentCDF block.header.difficulty
                  let saved := saveCdf (saveBlock s block) block.hash newCDF
                  match lookupCdf saved tip.hash with
                  | none => (saved, some .tipCdfMissing)
                  | some tipCDF =>
                    if tipCDF < newCDF ∨
                        (newCDF = tipCDF ∧ block.header.prevBlockHash = tip.hash) then
                      reorganize verify saved block
                    else (saved, none)

/-! ## Reachable states

A state is reachable when it arises from a fresh node by genesis
initialization, block ingestion (successful or not — failed calls may still
have persisted data), and arbitrary external activity on the attached
mempool (admissions, evictions, attachment), which touches only the `pool`
field. -/

inductive Reachable (verify : Hash → List Nat → List Nat → Bool) : ChainState → Prop where
  | empty : Reachable verify emptyState
  | genesisStep (s : ChainState) (addr : Hash) (d : Nat) (ts : Int) :
      Reachable verify s → Reachable verify (initGenesis s addr d ts).1
  | addBlockStep (s : ChainState) (now : Int) (b : Block) :
      Reachable verify s → Reachable verify (addBlock verify now s b).1
  | poolStep (s : ChainState) (p : Option (List Transaction)) :
      Reachable verify s → Reachable verify { s with pool := p }

/-! ## A concrete two-block scenario

Genesis at difficulty 0 (exactly the repository's own
`TestGenesisBlockCreation` parameters) followed by one mined child, both at
difficulty 0.  Everything below evaluates inside the kernel, SHA-256
included. -/

/-- A verifier that accepts nothing; the scenario admits no transactions. -/
def verifyNone : Hash → List Nat → List Nat → Bool := fun _ _ _ => false

/-- The miner address of the scenario (first byte 1). -/
def minerAddr : Hash := 1 :: List.replicate 31 0

/-- The genesis timestamp of the scenario. -/
def gTime : Int := 1000000

/-- The state after `InitGenesis(minerAddr, 0, gTime)`. -/
def sGenesis : ChainState := (initGenesis emptyState minerAddr 0 gTime).1

/-- A placeholder block for total `Option.getD` access. -/
def dummyBlock : Block :=
  { header := { version := 0, height := 0, timestamp := 0, prevBlockHash := zeroHash,
                merkleRoot := zeroHash, difficulty := 0, nonce := 0 },
    transactions := [], hash := zeroHash, powHash := zeroHash }

/-- The genesis block the scenario installed. -/
def genesisBlock : Block := sGenesis.tip.getD dummyBlock

/-- The coinbase of the scenario's height-1 block. -/
def coinbase1 : Transaction :=
  let cb0 : Transaction :=
    { id := zeroHash, type := .coinbase, timestamp := gTime + 1,
      fromAddr := zeroHash, toAddr := minerAddr,
      amount := blockRewardConst, fee := 0, nonce := 1, signature := [] }
  { cb0 with id := cb0.computeID }

/-- The header of the scenario's height-1 block: difficulty 0, extending
genesis. -/
def header1 : BlockHeader :=
  { version := 1, height := 1, timestamp := gTime + 1,
    prevBlockHash := genesisBlock.hash, merkleRoot := computeMerkleRoot [coinbase1],
    difficulty := 0, nonce := 0 }

/-- The scenario's height-1 block with its identity and PoW hashes. -/
def block1 : Block :=
  { header := header1, transactions := [coinbase1],
    hash := computeSHA256 header1.serialize,
    powHash := sha256HasherHash header1.serialize }

/-- The state after ingesting `block1` on top of the genesis state. -/
def sTwo : ChainState := (addBlock verifyNone (gTime + 1) sGenesis block1).1

/-! ### Evaluated scenario values

The SHA-256 digests below were produced by the definitions above; the
`..._eval` lemmas check them in the kernel once, and later concrete proofs
work over the literals instead of re-running the hash function. -/

/-- The genesis block hash of the scenario. -/
def gHashLit : Hash :=
  [203, 172, 0, 246, 131, 219, 199, 161, 218, 152, 223, 81, 16, 95, 224, 91,
   231, 164, 114, 140, 231, 133, 74, 144, 175, 208, 183, 226, 73, 25, 121, 140]

/-- The genesis coinbase id (also the genesis merkle root). -/
def gIdLit : Hash :=
  [13, 130, 255, 73, 212, 65, 36, 44, 20, 41, 48, 72, 40, 56, 214, 184, 92, 238,
   212, 50, 244, 94, 177, 119, 230, 232, 74, 87, 170, 30, 148, 8]

/-- The genesis PoW hash. -/
def gPowLit : Hash :=
  [160, 16, 158, 87, 30, 159, 29, 96, 57, 155, 70, 62, 243, 134, 69, 127, 79,
   230, 214, 8, 122, 191, 183, 95, 225, 255, 133, 168, 0, 10, 204, 67]

/-- The block-1 hash of the scenario. -/
def b1HashLit : Hash :=
  [138, 179, 127, 43, 247, 56, 63, 52, 66, 188, 62, 237, 175, 121, 224, 68, 4, 2,
   16, 161, 176, 94, 251, 133, 247, 32, 72, 193, 110, 203, 10, 234]

/-- The block-1 coinbase id (also its merkle root). -/
def b1IdLit : Hash :=
  [2, 69, 8, 70, 64, 136, 141, 194, 73, 163, 102, 34, 201, 70, 116, 81, 16, 80,
   221, 74, 207, 54, 139, 65, 120, 182, 98, 40, 92, 152, 28, 54]

/-- The block-1 PoW hash. -/
def b1PowLit : Hash :=
  [195, 231, 202, 185, 115, 51, 66, 19, 112, 115, 6, 101, 158, 205, 207, 21, 170,
   52, 98, 232, 173, 94, 36, 98, 60, 5, 38, 17, 62, 207, 140, 224]

/-- The genesis block, in evaluated literal form. -/
def genesisBlockLit : Block :=
  { header := { version := 1, height := 0, timestamp := 1000000,
                prevBlockHash := zeroHash, merkleRoot := gIdLit,
                difficulty := 0, nonce := 0 },
    transactions :=
      [{ id := gIdLit, type := .coinbase, timestamp := 1000000,
         fromAddr := zeroHash, toAddr := minerAddr, amount := 100000000,
         fee := 0, nonce := 0, signature := [] }],
    hash := gHashLit, powHash := gPowLit }

/-- The genesis state, in evaluated literal form. -/
def sGenesisLit : ChainState :=
  { blocks := [(gHashLit, genesisBlockLit)],
    canonical := [(0, gHashLit)],
    headHash := some gHashLit,
    cdf := [(gHashLit, 0)],
    tip := some genesisBlockLit,
    pool := none }

/-- Block 1, in evaluated literal form. -/
def block1Lit : Block :=
  { header := { version := 1, height := 1, timestamp := 1000001,
                prevBlockHash := gHashLit, merkleRoot := b1IdLit,
                difficulty := 0, nonce := 0 },
    transactions :=
      [{ id := b1IdLit, type := .coinbase, timestamp := 1000001,
         fromAddr := zeroHash, toAddr := minerAddr, amount := 100000000,
         fee := 0, nonce := 1, signature := [] }],
    hash := b1HashLit, powHash := b1PowLit }

/-- The two-block state, in evaluated literal form. -/
def sTwoLit : ChainState :=
  { blocks := [(b1HashLit, block1Lit), (gHashLit, genesisBlockLit)],
    canonical := [(1, b1HashLit), (0, gHashLit)],
    headHash := some b1HashLit,
    cdf := [(b1HashLit, 0), (gHashLit, 0)],
    tip := some block1Lit,
    pool := none }

/-! ## Specification-side notions used by the claims -/

/-- The coinbase constructor (`types.NewCoinbaseTx`); `now` stands for the
`time.Now()` read. -/
def newCoinbaseTx (now : Int) (minerAddress : Hash) (blockHeight : Nat) : Transaction :=
  let tx0 : Transaction :=
    { id := zeroHash, type := .coinbase, timestamp := now,
      fromAddr := zeroHash, toAddr := minerAddress,
      amount := blockRewardConst, fee := 0, nonce := blockHeight, signature := [] }
  { tx0 with id := tx0.computeID }

/-- Bit `i` of a hash, counted from the most significant bit of byte 0. -/
def hashBit (h : Hash) (i : Nat) : Nat :=
  (h.getD (i / 8) 0 >>> (7 - i % 8)) &&& 1

/-- One transaction's credit to `addr` under the account-state replay:
transfers pay out unconditionally, coinbases only when mature. -/
def txCredit (addr : Hash) (currentHeight blockHeight : Nat) (tx : Transaction) : Nat :=
  if tx.toAddr = addr then
    if tx.type = .coinbase then
      if isMature blockHeight currentHeight then tx.amount else 0
    else tx.amount
  else 0

/-- One transaction's debit from `addr` (amount plus fee when sent by it). -/
def txDebit (addr : Hash) (tx : Transaction) : Nat :=
  if tx.fromAddr = addr then tx.amount + tx.fee else 0

/-- Whether the transaction counts toward `addr`'s confirmed nonce. -/
def txFromCount (addr : Hash) (tx : Transaction) : Nat :=
  if tx.fromAddr = addr then 1 else 0

/-- Total credits to `addr` over a chain segment. -/
def chainCredits (addr : Hash) (currentHeight : Nat) (blocks : List Block) : Nat :=
  (blocks.map (fun b => (b.transactions.map (txCredit addr currentHeight b.header.height)).sum)).sum

/-- Total debits from `addr` over a chain segment. -/
def chainDebits (addr : Hash) (blocks : List Block) : Nat :=
  (blocks.map (fun b => (b.transactions.map (txDebit addr)).sum)).sum

/-- Number of transactions sent by `addr` over a chain segment. -/
def chainFromCount (addr : Hash) (blocks : List Block) : Nat :=
  (blocks.map (fun b => (b.transactions.map (txFromCount addr)).sum)).sum

/-- The pending nonce as the specification words it: the maximum of the
confirmed nonce and `entry.nonce + 1` over same-sender pool entries. -/
def pendingNonceSpec (pool : List Transaction) (confirmed : Nat) (sender : Hash) : Nat :=
  ((pool.filter (fun p => p.fromAddr == sender)).map (fun p => p.nonce + 1)).foldl max confirmed

/-- The pending debit as the specification words it: the exact sum of
amount plus fee over same-sender pool entries. -/
def pendingDebitSpec (pool : List Transaction) (sender : Hash) : Nat :=
  ((pool.filter (fun p => p.fromAddr == sender)).map (fun p => p.amount + p.fee)).sum

/-- Strict lexicographic order on hashes (byte lists), for the id
tie-break the specification asks of the mempool listing. -/
def hashLexLt : List Nat → List Nat → Bool
  | [], [] => false
  | [], _ :: _ => true
  | _ :: _, [] => false
  | a :: as, b :: bs => if a < b then true else if a = b then hashLexLt as bs else false

/-- The ordering the specification requires of `List(max)`: ascending
timestamp, ids ascending among equal timestamps. -/
def tsIdLe (a b : Transaction) : Prop :=
  a.timestamp < b.timestamp ∨
    (a.timestamp = b.timestamp ∧ (a.id = b.id ∨ hashLexLt a.id b.id = true))

instance : DecidableRel tsIdLe := fun a b => by
  unfold tsIdLe
  infer_instance

/-- A listing ordered deterministically by (timestamp, id). -/
def tsIdOrdered (l : List Transaction) : Prop := List.Pairwise tsIdLe l

instance (l : List Transaction) : Decidable (tsIdOrdered l) :=
  inferInstanceAs (Decidable (List.Pairwise tsIdLe l))

instance : IsTotal Transaction mempoolLe :=
  ⟨fun a b => Int.le_total a.timestamp b.timestamp⟩

instance : IsTrans Transaction mempoolLe :=
  ⟨fun _ _ _ hab hbc => le_trans hab hbc⟩

/-- The `AddBlock` failures raised before anything is persisted: missing
parent, wrong height, difficulty mismatch, and every `ValidateBlock`
rejection. -/
def isPreValidationErr : ChainErr → Bool
  | .parentNotFound => true
  | .invalidHeight => true
  | .difficultyMismatch => true
  | .validation _ => true
  | _ => false

/-- Parent relation inside a state's store: `c`'s recorded previous hash is
a real reference (not the genesis sentinel) and resolves to `p`. -/
def parentStep (s : ChainState) (c p : Block) : Prop :=
  c.header.prevBlockHash ≠ zeroHash ∧ lookupBlock s c.header.prevBlockHash = some p

/-- Strict ancestry through the store: `AncestorOf s b c` holds when `b` is
reached from `c` by one or more parent steps. -/
inductive AncestorOf (s : ChainState) : Block → Block → Prop where
  | parent (c p : Block) : parentStep s c p → AncestorOf s p c
  | step (b p c : Block) : AncestorOf s b p → parentStep s c p → AncestorOf s b c

/-- No `uint64` wrap when this block's difficulty is added onto its
parent's stored cumulative difficulty. -/
def noWrapAt (s : ChainState) (b : Block) : Bool :=
  match lookupBlock s b.header.prevBlockHash with
  | none => true
  | some p =>
    match lookupCdf s p.hash with
    | none => true
    | some cp => decide (cp + b.header.difficulty < U64)

/-- No stored cumulative-difficulty addition wraps modulo `2 ^ 64`. -/
def CdfNoWrap (s : ChainState) : Prop := ∀ e ∈ s.blocks, noWrapAt s e.2 = true

instance (s : ChainState) : Decidable (CdfNoWrap s) :=
  inferInstanceAs (Decidable (∀ e ∈ s.blocks, noWrapAt s e.2 = true))

/-- Every stored block has nonzero difficulty. -/
def AllDiffPos (s : ChainState) : Prop := ∀ e ∈ s.blocks, 1 ≤ e.2.header.difficulty

instance (s : ChainState) : Decidable (AllDiffPos s) :=
  inferInstanceAs (Decidable (∀ e ∈ s.blocks, 1 ≤ e.2.header.difficulty))

/-- The store-shape invariant the engine maintains: blocks are keyed by
their own hash, parents of stored blocks are stored (the genesis sentinel
aside), every stored block has a stored cumulative difficulty, cumulative
difficulties belong to stored blocks and equal the parent's value plus the
block's difficulty, and a nil tip means a virgin store. -/
structure ChainInv (s : ChainState) : Prop where
  keyHash : ∀ e ∈ s.blocks, e.1 = e.2.hash
  prevStored : ∀ e ∈ s.blocks,
    e.2.header.prevBlockHash = zeroHash ∨
      ∃ p, lookupBlock s e.2.header.prevBlockHash = some p
  cdfEx : ∀ e ∈ s.blocks, ∃ c, lookupCdf s e.1 = some c
  cdfKeys : ∀ e ∈ s.cdf, ∃ b, lookupBlock s e.1 = some b
  cdfLink : ∀ e ∈ s.blocks, e.2.header.prevBlockHash ≠ zeroHash →
    ∀ p, lookupBlock s e.2.header.prevBlockHash = some p →
    ∀ cp cc, lookupCdf s p.hash = some cp → lookupCdf s e.1 = some cc →
    cc = u64add cp e.2.header.difficulty
  tipEmpty : s.tip = none → s.blocks = [] ∧ s.cdf = []

/-! ## Concrete inputs for witnesses and counterexamples -/

/-- A transaction with the lexicographically smaller id and timestamp 50. -/
def txA : Transaction :=
  { id := 1 :: List.replicate 31 0, type := .transfer, timestamp := 50,
    fromAddr := zeroHash, toAddr := zeroHash, amount := 0, fee := 0,
    nonce := 0, signature := [] }

/-- A transaction with the lexicographically larger id and the same
timestamp as `txA`. -/
def txB : Transaction := { txA with id := 2 :: List.replicate 31 0 }

/-- The coinbase of the counterexample's new-chain block. -/
def cbN : Transaction :=
  { id := 3 :: List.replicate 31 0, type := .coinbase, timestamp := 10,
    fromAddr := zeroHash, toAddr := zeroHash, amount := blockRewardConst,
    fee := 0, nonce := 1, signature := [] }

/-- The coinbase of the counterexample's old-chain block. -/
def cbO : Transaction := { cbN with id := 4 :: List.replicate 31 0 }

/-- A transfer confirmed only on the counterexample's old chain. -/
def tO : Transaction :=
  { id := 5 :: List.replicate 31 0, type := .transfer, timestamp := 11,
    fromAddr := 6 :: List.replicate 31 0, toAddr := 7 :: List.replicate 31 0,
    amount := 5, fee := 1, nonce := 0, signature := [] }

/-- The counterexample's new-chain block (only its coinbase). -/
def blkN : Block :=
  { header := { version := 1, height := 1, timestamp := 10, prevBlockHash := zeroHash,
                merkleRoot := zeroHash, difficulty := 0, nonce := 0 },
    transactions := [cbN], hash := 8 :: List.replicate 31 0, powHash := zeroHash }

/-- The counterexample's old-chain block (coinbase plus the transfer). -/
def blkO : Block :=
  { header := { version := 1, height := 1, timestamp := 9, prevBlockHash := zeroHash,
                merkleRoot := zeroHash, difficulty := 0, nonce := 0 },
    transactions := [cbO, tO], hash := 9 :: List.replicate 31 0, powHash := zeroHash }

/-- A state with a tip but an empty store: `AddBlock` on it fails with
`parentNotFound` before persisting anything. -/
def sW : ChainState :=
  { blocks := [], canonical := [], headHash := none, cdf := [],
    tip := some dummyBlock, pool := none }

/-- A verifier that accepts everything. -/
def verifyAll : Hash → List Nat → List Nat → Bool := fun _ _ _ => true

/-- A transaction admissible into an empty pool over an empty chain. -/
def txW : Transaction :=
  { id := 10 :: List.replicate 31 0, type := .transfer, timestamp := 0,
    fromAddr := 11 :: List.replicate 31 0, toAddr := zeroHash, amount := 0,
    fee := 0, nonce := 0, signature := [] }

/-- A height-24 parent for the retarget witness: difficulty 50. -/
def p24 : Block :=
  { header := { version := 1, height := 24, timestamp := 200000, prevBlockHash := zeroHash,
                merkleRoot := zeroHash, difficulty := 50, nonce := 0 },
    transactions := [], hash := zeroHash, powHash := zeroHash }

/-- The height-1 window-start block for the retarget witness: the window
spans half the target time, so the difficulty doubles. -/
def f1 : Block :=
  { header := { version := 1, height := 1, timestamp := 200000 - 43200, prevBlockHash := zeroHash,
                merkleRoot := zeroHash, difficulty := 50, nonce := 0 },
    transactions := [], hash := zeroHash, powHash := zeroHash }

/-- The ancestor callback for the retarget witness. -/
def g24 : Nat → Option Block := fun h => if h = 1 then some f1 else none

end Chrd

section ScenarioChecks

set_option maxRecDepth 1000000
set_option maxHeartbeats 4000000

open Chrd

/-- The scenario's genesis initialization succeeds and produces the literal
state. -/
theorem initGenesis_eval :
    initGenesis emptyState minerAddr 0 gTime = (sGenesisLit, none) := by decide

/-- The genesis state in literal form. -/
theorem sGenesis_eval : sGenesis = sGenesisLit := by
  have h := congrArg Prod.fst initGenesis_eval
  exact h

/-- The genesis block in literal form. -/
theorem genesisBlock_eval : genesisBlock = genesisBlockLit := by
  show (sGenesis.tip.getD dummyBlock) = genesisBlockLit
  rw [sGenesis_eval]
  rfl

/-- Block 1 in literal form (one more kernel hash evaluation). -/
theorem block1_eval : block1 = block1Lit := by
  show ({ header := header1, transactions := [coinbase1],
          hash := computeSHA256 header1.serialize,
          powHash := sha256HasherHash header1.serialize } : Block) = block1Lit
  have h : header1 =
      { version := 1, height := 1, timestamp := 1000001,
        prevBlockHash := gHashLit, merkleRoot := b1IdLit,
        difficulty := 0, nonce := 0 } := by
    show ({ version := 1, height := 1, timestamp := gTime + 1,
            prevBlockHash := genesisBlock.hash, merkleRoot := computeMerkleRoot [coinbase1],
            difficulty := 0, nonce := 0 } : BlockHeader) = _
    rw [genesisBlock_eval]
    decide
  rw [h]
  decide

/-- Ingesting `block1` succeeds with the literal two-block state: it is
adopted as tip by the direct-extension tie-break at equal cumulative
difficulty 0. -/
theorem addBlock_eval :
    addBlock verifyNone (gTime + 1) sGenesis block1 = (sTwoLit, none) := by
  rw [sGenesis_eval, block1_eval]
  decide

/-- The two-block state in literal form. -/
theorem sTwo_eval : sTwo = sTwoLit := by
  have h := congrArg Prod.fst addBlock_eval
  exact h

end ScenarioChecks

section Sha256Checks

set_option maxRecDepth 100000

open Chrd Chrd.Sha256

/-- FIPS 180-2 test vector: the digest of the empty message. -/
theorem sha256_empty :
    sha256 [] =
      [0xe3, 0xb0, 0xc4, 0x42, 0x98, 0xfc, 0x1c, 0x14, 0x9a, 0xfb, 0xf4, 0xc8,
       0x99, 0x6f, 0xb9, 0x24, 0x27, 0xae, 0x41, 0xe4, 0x64, 0x9b, 0x93, 0x4c,
       0xa4, 0x95, 0x99, 0x1b, 0x78, 0x52, 0xb8, 0x55] := by decide

/-- FIPS 180-2 test vector: the digest of the three bytes "abc". -/
theorem sha256_abc :
    sha256 [0x61, 0x62, 0x63] =
      [0xba, 0x78, 0x16, 0xbf, 0x8f, 0x01, 0xcf, 0xea, 0x41, 0x41, 0x40, 0xde,
       0x5d, 0xae, 0x22, 0x23, 0xb0, 0x03, 0x61, 0xa3, 0x96, 0x17, 0x7a, 0x9c,
       0xb4, 0x10, 0xff, 0x61, 0xf2, 0x00, 0x15, 0xad] := by decide

end Sha256Checks

namespace Chrd

set_option maxRecDepth 40000
set_option maxHeartbeats 1600000

/-! ## Claim C6: MeetsDifficulty checks exactly the leading zero bits -/

/-- A byte is zero exactly when its eight bits are. -/
theorem byteZero_iff :
    ∀ b : Nat, b < 256 → (b = 0 ↔ ∀ j, j < 8 → (b >>> (7 - j)) &&& 1 = 0) := by decide

/-- The remainder mask of `MeetsDifficulty` tests exactly the top `r` bits
of a byte. -/
theorem maskZero_iff :
    ∀ r, r < 8 → 1 ≤ r → ∀ b, b < 256 →
      ((b &&& ((0xff <<< (8 - r)) % 256) = 0) ↔ ∀ j, j < r → (b >>> (7 - j)) &&& 1 = 0) := by
  decide

/-- Bytes of a well-formed hash are below 256. -/
theorem hashByte_lt (h : Hash) (hlen : h.length = 32) (hbytes : ∀ b ∈ h, b < 256)
    (q : Nat) (hq : q < 32) : h.getD q 0 < 256 := by
  have hq2 : q < h.length := by omega
  rw [List.getD_eq_getElem h 0 hq2]
  exact hbytes _ (List.getElem_mem hq2)

/-- The leading-bits reading of `meetsDifficulty` for in-range difficulties. -/
theorem meetsDifficulty_iff_bits (h : Hash) (d : Nat) (hlen : h.length = 32)
    (hbytes : ∀ b ∈ h, b < 256) (hd : d ≤ 256) :
    meetsDifficulty h d = true ↔ ∀ i, i < d → hashBit h i = 0 := by
  by_cases h0 : d = 0
  · subst h0
    simp [meetsDifficulty]
  · have hgt : ¬ d > 256 := by omega
    rw [meetsDifficulty, if_neg h0, if_neg hgt, Bool.and_eq_true]
    constructor
    · rintro ⟨hall, hrem⟩ i hid
      have h8 : i % 8 < 8 := Nat.mod_lt _ (by omega)
      rcases Nat.lt_or_ge (i / 8) (d / 8) with hq | hq
      · have hz : h.getD (i / 8) 0 = 0 :=
          beq_iff_eq.mp (List.all_eq_true.mp hall (i / 8) (List.mem_range.mpr hq))
        unfold hashBit
        rw [hz]
        simp
      · have hqe : i / 8 = d / 8 := by omega
        have hre : i % 8 < d % 8 := by omega
        have hrp : 0 < d % 8 := by omega
        have hfb : d / 8 < 32 := by omega
        rw [if_pos (by rw [Bool.and_eq_true]
                       exact ⟨decide_eq_true hrp, decide_eq_true hfb⟩)] at hrem
        have hm := (maskZero_iff (d % 8) (by omega) hrp _
          (hashByte_lt h hlen hbytes _ hfb)).mp (beq_iff_eq.mp hrem)
        unfold hashBit
        rw [hqe]
        exact hm _ hre
    · intro hb
      have hbit : ∀ q j, 8 * q + j < d → j < 8 →
          (h.getD q 0 >>> (7 - j)) &&& 1 = 0 := by
        intro q j hlt hj8
        have hq : (8 * q + j) / 8 = q := by omega
        have hr : (8 * q + j) % 8 = j := by omega
        have hx := hb (8 * q + j) hlt
        unfold hashBit at hx
        rw [hq, hr] at hx
        exact hx
      refine ⟨List.all_eq_true.mpr ?_, ?_⟩
      · intro q hq
        rw [List.mem_range] at hq
        refine beq_iff_eq.mpr ((byteZero_iff _ (hashByte_lt h hlen hbytes q (by omega))).mpr ?_)
        intro j hj
        exact hbit q j (by omega) hj
      · by_cases hrp : 0 < d % 8
        · have hfb : d / 8 < 32 := by omega
          rw [if_pos (by rw [Bool.and_eq_true]
                         exact ⟨decide_eq_true hrp, decide_eq_true hfb⟩)]
          refine beq_iff_eq.mpr ((maskZero_iff (d % 8) (by omega) hrp _
            (hashByte_lt h hlen hbytes _ hfb)).mpr ?_)
          intro j hj
          exact hbit (d / 8) j (by omega) (by omega)
        · rw [if_neg ?hc]
          case hc =>
            intro hcc
            rw [Bool.and_eq_true] at hcc
            exact hrp (of_decide_eq_true hcc.1)

/-- C6: for every 32-byte hash and difficulty `d`, `MeetsDifficulty(h, d)`
is true exactly when the first `d` bits of `h` are zero; difficulty 0
accepts anything, more than 256 bits accepts nothing, the all-zero hash
passes 256, and a leading byte `0x00` passes `d = 8` while `0x01` fails. -/
theorem C6_meetsDifficulty_leading_zero_bits :
    (∀ (h : Hash) (d : Nat), h.length = 32 → (∀ b ∈ h, b < 256) → d ≤ 256 →
      (meetsDifficulty h d = true ↔ ∀ i, i < d → hashBit h i = 0)) ∧
    (∀ h : Hash, meetsDifficulty h 0 = true) ∧
    meetsDifficulty zeroHash 256 = true ∧
    (∀ (h : Hash) (d : Nat), 256 < d → meetsDifficulty h d = false) ∧
    (∀ h : Hash, h.getD 0 0 = 0 → meetsDifficulty h 8 = true) ∧
    (∀ h : Hash, h.getD 0 0 = 1 → meetsDifficulty h 8 = false) := by
  refine ⟨meetsDifficulty_iff_bits, ?_, by decide, ?_, ?_, ?_⟩
  · intro h
    simp [meetsDifficulty]
  · intro h d hd
    rw [meetsDifficulty, if_neg (by omega), if_pos (by omega)]
  · intro h hz
    simp only [List.getD, List.get?_eq_getElem?] at hz
    simp [meetsDifficulty, hz]
  · intro h hz
    simp only [List.getD, List.get?_eq_getElem?] at hz
    simp [meetsDifficulty, hz]

/-- Witness for C6 at concrete inputs: the all-zero hash at difficulties
16 and 8. -/
theorem C6_witness :
    (meetsDifficulty zeroHash 16 = true ↔ ∀ i, i < 16 → hashBit zeroHash i = 0) ∧
    meetsDifficulty zeroHash 8 = true :=
  ⟨C6_meetsDifficulty_leading_zero_bits.1 zeroHash 16 (by decide) (by decide) (by decide),
   C6_meetsDifficulty_leading_zero_bits.2.2.2.2.1 zeroHash (by decide)⟩

/-! ## Claims C7 and C10: the account-state replay -/

/-- One replay step: the balance stays a `uint64`, moves by the credit
minus the debit modulo `2 ^ 64`, and the nonce counts the sender. -/
theorem applyTx_spec (addr : Hash) (cH bH : Nat) (st : Nat × Nat) (tx : Transaction)
    (hlt : st.1 < U64) :
    (applyTx addr cH bH st tx).1 < U64 ∧
    ((applyTx addr cH bH st tx).1 : Int) =
      ((st.1 : Int) + (txCredit addr cH bH tx : Int) - (txDebit addr tx : Int)) % (U64 : Int) ∧
    (applyTx addr cH bH st tx).2 = st.2 + txFromCount addr tx := by
  simp only [applyTx, txCredit, txDebit, txFromCount, u64add, u64sub]
  unfold U64 at *
  split_ifs <;>
    refine ⟨by omega, by push_cast; omega, by omega⟩

/-- The replay over a transaction list, in closed form. -/
theorem replayTxs_spec (addr : Hash) (cH bH : Nat) (txs : List Transaction) :
    ∀ st : Nat × Nat, st.1 < U64 →
      (txs.foldl (applyTx addr cH bH) st).1 < U64 ∧
      ((txs.foldl (applyTx addr cH bH) st).1 : Int) =
        ((st.1 : Int) + ((txs.map (txCredit addr cH bH)).sum : Int) -
          ((txs.map (txDebit addr)).sum : Int)) % (U64 : Int) ∧
      (txs.foldl (applyTx addr cH bH) st).2 = st.2 + (txs.map (txFromCount addr)).sum := by
  induction txs with
  | nil =>
    intro st h
    refine ⟨h, ?_, by simp⟩
    simp only [List.map_nil, List.sum_nil, List.foldl_nil]
    unfold U64 at *
    push_cast
    omega
  | cons t ts ih =>
    intro st h
    simp only [List.foldl_cons, List.map_cons, List.sum_cons]
    have ha := applyTx_spec addr cH bH st t h
    have hb := ih (applyTx addr cH bH st t) ha.1
    refine ⟨hb.1, ?_, by rw [hb.2.2, ha.2.2]; omega⟩
    rw [hb.2.1, ha.2.1]
    unfold U64
    push_cast
    omega

/-- The replay over a block list, in closed form. -/
theorem replayChain_spec (addr : Hash) (cH : Nat) (blocks : List Block) :
    ∀ st : Nat × Nat, st.1 < U64 →
      (blocks.foldl (replayBlock addr cH) st).1 < U64 ∧
      ((blocks.foldl (replayBlock addr cH) st).1 : Int) =
        ((st.1 : Int) + (chainCredits addr cH blocks : Int) -
          (chainDebits addr blocks : Int)) % (U64 : Int) ∧
      (blocks.foldl (replayBlock addr cH) st).2 = st.2 + chainFromCount addr blocks := by
  induction blocks with
  | nil =>
    intro st h
    refine ⟨h, ?_, by simp [chainFromCount]⟩
    simp only [List.foldl_nil, chainCredits, chainDebits, List.map_nil, List.sum_nil]
    unfold U64 at h ⊢
    push_cast
    omega
  | cons b bs ih =>
    intro st h
    simp only [List.foldl_cons, chainCredits, chainDebits, chainFromCount,
      List.map_cons, List.sum_cons]
    have ha := replayTxs_spec addr cH b.header.height b.transactions st h
    have hb := ih (replayBlock addr cH st b) ha.1
    simp only [chainCredits, chainDebits, chainFromCount] at hb
    refine ⟨hb.1, ?_, ?_⟩
    · rw [hb.2.1]
      unfold replayBlock at *
      rw [ha.2.1]
      unfold U64
      push_cast
      omega
    · rw [hb.2.2]
      unfold replayBlock at *
      rw [ha.2.2]
      omega

/-- The account-state derivation in closed form: the balance is the total
credits minus the total debits modulo `2 ^ 64`, and the nonce counts the
address's outgoing transactions on the canonical chain. -/
theorem getAccountState_spec (s : ChainState) (addr : Hash) :
    ((getAccountState s addr).1 : Int) =
      ((chainCredits addr (tipHeight s) (collectCanonical s) : Int) -
        (chainDebits addr (collectCanonical s) : Int)) % (U64 : Int) ∧
    (getAccountState s addr).2 = chainFromCount addr (collectCanonical s) := by
  have h := replayChain_spec addr (tipHeight s) (collectCanonical s) (0, 0) (by decide)
  unfold getAccountState
  refine ⟨?_, by rw [h.2.2]; simp⟩
  rw [h.2.1]
  norm_num

/-- C7: `IsMature(h_out, h_now)` holds exactly when `h_now ≥ h_out` and
`h_now − h_out ≥ 24`, with the two boundary cases at 23 and 24 blocks on
top; and the account-state replay credits a coinbase output to its
recipient only when `IsMature(block.height, tip.height)` holds — the
coinbase summand of the closed-form balance is the amount under exactly
that guard and zero otherwise. -/
theorem C7_coinbase_maturity :
    (∀ hOut hNow : Nat, isMature hOut hNow = true ↔ hOut ≤ hNow ∧ 24 ≤ hNow - hOut) ∧
    (∀ h0 : Nat, isMature h0 (h0 + 23) = false) ∧
    (∀ h0 : Nat, isMature h0 (h0 + 24) = true) ∧
    (∀ (s : ChainState) (addr : Hash),
      ((getAccountState s addr).1 : Int) =
        ((chainCredits addr (tipHeight s) (collectCanonical s) : Int) -
          (chainDebits addr (collectCanonical s) : Int)) % (U64 : Int)) ∧
    (∀ (addr : Hash) (cH bH : Nat) (tx : Transaction), tx.toAddr = addr →
      tx.type = .coinbase →
      txCredit addr cH bH tx = if isMature bH cH then tx.amount else 0) := by
  refine ⟨?_, ?_, ?_, fun s addr => (getAccountState_spec s addr).1, ?_⟩
  · intro hOut hNow
    unfold isMature coinbaseMaturity
    by_cases h : hNow < hOut
    · rw [if_pos h]
      simp
      omega
    · rw [if_neg h, decide_eq_true_eq]
      omega
  · intro h0
    unfold isMature coinbaseMaturity
    rw [if_neg (by omega)]
    exact decide_eq_false (by omega)
  · intro h0
    unfold isMature coinbaseMaturity
    rw [if_neg (by omega)]
    exact decide_eq_true (by omega)
  · intro addr cH bH tx h1 h2
    unfold txCredit
    rw [if_pos h1, if_pos h2]

/-- C10: with the all-zero address, every transaction whose sender field is
the zero hash — every coinbase built by `NewCoinbaseTx`, whose sender is
the zero hash by construction — is counted as an outgoing debit of
amount plus fee, the balance wraps modulo `2 ^ 64`, and the nonce counts
those transactions; on the concrete one-coinbase genesis chain the
reported balance underflows to `2 ^ 64 − 10 ^ 8`. -/
theorem C10_zero_address_underflow :
    (∀ (now : Int) (addr : Hash) (h : Nat), (newCoinbaseTx now addr h).fromAddr = zeroHash) ∧
    (∀ tx : Transaction, tx.fromAddr = zeroHash →
      txDebit zeroHash tx = tx.amount + tx.fee ∧ txFromCount zeroHash tx = 1) ∧
    (∀ s : ChainState,
      ((getAccountState s zeroHash).1 : Int) =
        ((chainCredits zeroHash (tipHeight s) (collectCanonical s) : Int) -
          (chainDebits zeroHash (collectCanonical s) : Int)) % (U64 : Int) ∧
      (getAccountState s zeroHash).2 = chainFromCount zeroHash (collectCanonical s)) ∧
    getAccountState sGenesis zeroHash = (U64 - 100000000, 1) := by
  refine ⟨fun now addr h => rfl, ?_, fun s => getAccountState_spec s zeroHash, ?_⟩
  · intro tx h
    unfold txDebit txFromCount
    rw [if_pos h, if_pos h]
    exact ⟨rfl, rfl⟩
  · rw [show getAccountState sGenesis zeroHash = getAccountState sGenesisLit zeroHash by
      rw [sGenesis_eval]]
    decide

/-- Witness for C7 at a concrete coinbase: a height-0 output seen from
height 24 is mature and credited in full. -/
theorem C7_witness :
    txCredit minerAddr 24 0 (newCoinbaseTx 0 minerAddr 0) =
      if isMature 0 24 then (newCoinbaseTx 0 minerAddr 0).amount else 0 :=
  C7_coinbase_maturity.2.2.2.2 minerAddr 24 0 (newCoinbaseTx 0 minerAddr 0) rfl rfl

/-- Witness for C10 at a concrete coinbase: it debits the zero address by
its amount plus fee and bumps the zero address's nonce. -/
theorem C10_witness :
    txDebit zeroHash (newCoinbaseTx 0 minerAddr 0) =
      (newCoinbaseTx 0 minerAddr 0).amount + (newCoinbaseTx 0 minerAddr 0).fee ∧
    txFromCount zeroHash (newCoinbaseTx 0 minerAddr 0) = 1 :=
  C10_zero_address_underflow.2.1 (newCoinbaseTx 0 minerAddr 0) rfl

/-! ## Claim C5: the difficulty retarget rule -/

/-- The wrapping timestamp difference is exact within the `int64` range. -/
theorem i64Sub_eq_of_range (a b : Int) (hlo : -(2 ^ 63 : Int) ≤ a - b)
    (hhi : a - b < 2 ^ 63) : i64Sub a b = a - b := by
  unfold i64Sub U64
  omega

/-- C5: `CalcNextRequiredDifficulty` returns 1 with no parent, the parent's
difficulty below the 24-block window, and otherwise the parent's difficulty
times `3600·24` divided by `max(1, parent.timestamp − first.timestamp)` —
computed exactly (the source uses `big.Int`) — clamped into
`[1, 2 ^ 64 − 1]`, where `first` is the looked-up block at height
`parent.height − 24 + 1`. -/
theorem C5_calcNextRequiredDifficulty_rule :
    (∀ g : Nat → Option Block, calcNextRequiredDifficulty none g = some 1) ∧
    (∀ (p : Block) (g : Nat → Option Block), p.header.height < 24 →
      calcNextRequiredDifficulty (some p) g = some p.header.difficulty) ∧
    (∀ (p fb : Block) (g : Nat → Option Block), 24 ≤ p.header.height →
      g (p.header.height - 24 + 1) = some fb →
      -(2 ^ 63 : Int) ≤ p.header.timestamp - fb.header.timestamp →
      p.header.timestamp - fb.header.timestamp < 2 ^ 63 →
      calcNextRequiredDifficulty (some p) g =
        some (min (max 1 (p.header.difficulty * (3600 * 24) /
          (max 1 (p.header.timestamp - fb.header.timestamp)).toNat)) (2 ^ 64 - 1))) := by
  refine ⟨fun g => rfl, ?_, ?_⟩
  · intro p g h
    simp [calcNextRequiredDifficulty, difficultyAdjustmentWindow, h]
  · intro p fb g hh hg hlo hhi
    have hi64 := i64Sub_eq_of_range p.header.timestamp fb.header.timestamp hlo hhi
    simp only [calcNextRequiredDifficulty, difficultyAdjustmentWindow, targetBlockTime]
    rw [if_neg (by omega), hg]
    simp only [hi64]
    have hA : (if p.header.timestamp - fb.header.timestamp ≤ 0 then (1 : Int)
        else p.header.timestamp - fb.header.timestamp) =
        max 1 (p.header.timestamp - fb.header.timestamp) := by
      split_ifs with hc
      · omega
      · omega
    rw [hA]
    have hU : U64 - 1 = 2 ^ 64 - 1 := by decide
    rw [hU]
    set n := p.header.difficulty * (3600 * 24) /
      (max 1 (p.header.timestamp - fb.header.timestamp)).toNat with hn
    split_ifs with h1 h2
    · have : min (max 1 n) (2 ^ 64 - 1) = 1 := by omega
      rw [this]
    · have : min (max 1 n) (2 ^ 64 - 1) = 2 ^ 64 - 1 := by omega
      rw [this]
    · have : min (max 1 n) (2 ^ 64 - 1) = n := by omega
      rw [this]

/-- Witness for C5: a height-24 parent at difficulty 50 over a half-target
window doubles to 100, and a missing parent yields 1. -/
theorem C5_witness :
    calcNextRequiredDifficulty (some p24) g24 = some 100 ∧
    calcNextRequiredDifficulty none g24 = some 1 := by
  have h := C5_calcNextRequiredDifficulty_rule.2.2 p24 f1 g24 (by decide) (by decide)
    (by decide) (by decide)
  refine ⟨?_, C5_calcNextRequiredDifficulty_rule.1 g24⟩
  rw [h]
  decide

/-! ## Claim C8: the mempool listing order -/

/-- Counterexample for C8: two distinct-id transactions with equal
timestamps.  Listing them from the two possible map iteration orders — the
same pool contents — returns two different sequences, and the order
containing the larger id first is not sorted by `(timestamp, id)`; the code
sorts by timestamp only, so there is no id tie-break and no determinism
over pool contents. -/
theorem C8_counterexample :
    getPendingTransactions [txB, txA] 10 = [txB, txA] ∧
    getPendingTransactions [txA, txB] 10 = [txA, txB] ∧
    txA.timestamp = txB.timestamp ∧
    hashLexLt txA.id txB.id = true ∧
    txA ≠ txB ∧
    List.Perm [txB, txA] [txA, txB] ∧
    getPendingTransactions [txB, txA] 10 ≠ getPendingTransactions [txA, txB] 10 ∧
    ¬ tsIdOrdered (getPendingTransactions [txB, txA] 10) := by
  refine ⟨by decide, by decide, by decide, by decide, by decide, ?_, by decide, ?_⟩
  · decide
  · decide

/-- C8 as amended: `List(max)` returns at most `max` transactions, sorted
by non-decreasing timestamp, all drawn from the pool — the whole pool
reordered when it fits the bound; among equal timestamps the order follows
the pool's iteration order, not ids. -/
theorem C8_amended_listing (pool : List Transaction) (maxCount : Nat) :
    (getPendingTransactions pool maxCount).length ≤ maxCount ∧
    List.Pairwise mempoolLe (getPendingTransactions pool maxCount) ∧
    (∀ tx ∈ getPendingTransactions pool maxCount, tx ∈ pool) ∧
    (pool.length ≤ maxCount → List.Perm (getPendingTransactions pool maxCount) pool) := by
  unfold getPendingTransactions
  refine ⟨?_, ?_, ?_, ?_⟩
  · rw [List.length_take, List.length_insertionSort]
    exact min_le_left _ _
  · exact (List.sorted_insertionSort mempoolLe pool).sublist (List.take_sublist _ _)
  · intro tx htx
    exact (List.mem_insertionSort mempoolLe).mp (List.take_subset _ _ htx)
  · intro hlen
    rw [List.take_of_length_le (by rw [List.length_insertionSort]; exact hlen)]
    exact List.perm_insertionSort mempoolLe pool

/-- Witness for C8 as amended, at a concrete two-element pool. -/
theorem C8_amended_witness :
    (getPendingTransactions [txA, txB] 10).length ≤ 10 ∧
    List.Pairwise mempoolLe (getPendingTransactions [txA, txB] 10) ∧
    List.Perm (getPendingTransactions [txA, txB] 10) [txA, txB] :=
  ⟨(C8_amended_listing [txA, txB] 10).1,
   (C8_amended_listing [txA, txB] 10).2.1,
   (C8_amended_listing [txA, txB] 10).2.2.2 (by decide)⟩

/-! ## Claim C4: mempool admission -/

/-- The same-sender accumulation loop of `AddTransaction`, in closed form:
when no `uint64` increment or debit sum wraps, the running nonce is the
maximum of the start value and `nonce + 1` over same-sender entries, and
the running debit is the start value plus the exact sum of their amounts
and fees. -/
theorem pendingState_fold_spec (sender : Hash) (pool : List Transaction) :
    ∀ pn0 pd0 : Nat,
      (∀ p ∈ pool, p.fromAddr = sender → p.nonce + 1 < U64) →
      pd0 + pendingDebitSpec pool sender < U64 →
      pool.foldl
        (fun st p =>
          if p.fromAddr = sender then
            ((if st.1 ≤ p.nonce then (p.nonce + 1) % U64 else st.1),
             u64add st.2 (u64add p.amount p.fee))
          else st)
        (pn0, pd0) =
      (((pool.filter (fun p => p.fromAddr == sender)).map (fun p => p.nonce + 1)).foldl max pn0,
       pd0 + pendingDebitSpec pool sender) := by
  induction pool with
  | nil =>
    intro pn0 pd0 _ _
    simp [pendingDebitSpec]
  | cons p ps ih =>
    intro pn0 pd0 hn hd
    by_cases hp : p.fromAddr = sender
    · have hbeq : (p.fromAddr == sender) = true := beq_iff_eq.mpr hp
      have hdc : pendingDebitSpec (p :: ps) sender =
          (p.amount + p.fee) + pendingDebitSpec ps sender := by
        unfold pendingDebitSpec
        simp [List.filter_cons, hbeq]
      have hn1 : p.nonce + 1 < U64 := hn p (List.mem_cons_self p ps) hp
      have hnodbg : pd0 + (p.amount + p.fee) + pendingDebitSpec ps sender < U64 := by
        rw [hdc] at hd
        omega
      simp only [List.foldl_cons, if_pos hp]
      have hfst : (if pn0 ≤ p.nonce then (p.nonce + 1) % U64 else pn0) =
          max pn0 (p.nonce + 1) := by
        split_ifs with hle
        · rw [Nat.mod_eq_of_lt hn1]
          omega
        · omega
      have hsnd : u64add pd0 (u64add p.amount p.fee) = pd0 + (p.amount + p.fee) := by
        unfold u64add U64 at *
        omega
      rw [hfst, hsnd,
        ih (max pn0 (p.nonce + 1)) (pd0 + (p.amount + p.fee))
          (fun q hq hqs => hn q (List.mem_cons_of_mem p hq) hqs) hnodbg, hdc]
      unfold pendingDebitSpec
      simp only [List.filter_cons, hbeq, if_pos, List.map_cons, List.foldl_cons,
        List.sum_cons, ite_true, Prod.mk.injEq]
      exact ⟨trivial, by omega⟩
    · have hbeq : (p.fromAddr == sender) = false := by
        simp [hp]
      have hdc : pendingDebitSpec (p :: ps) sender = pendingDebitSpec ps sender := by
        unfold pendingDebitSpec
        simp [List.filter_cons, hbeq]
      simp only [List.foldl_cons, if_neg hp]
      rw [ih pn0 pd0 (fun q hq hqs => hn q (List.mem_cons_of_mem p hq) hqs)
        (by rw [hdc] at hd; exact hd), hdc]
      unfold pendingDebitSpec
      simp [List.filter_cons, hbeq]

/-- C4: `Admit(tx)` rejects `AlreadyPresent` on a duplicate id, then
`InvalidSignature` when the abstract Ed25519 verification of the 97-byte
encoding against `tx.from` fails, then `InvalidNonce` unless the nonce is
the pending nonce (the maximum over same-sender entries of `nonce + 1`
starting from the confirmed nonce), then `InsufficientFunds` unless the
confirmed balance covers the same-sender pending amounts and fees plus the
transaction's own amount and fee, and otherwise stores the transaction;
the no-wrap hypotheses pin the `uint64` arithmetic to the exact sums. -/
theorem C4_addTransaction_admission (verify : Hash → List Nat → List Nat → Bool)
    (s : ChainState) (pool : List Transaction) (tx : Transaction)
    (hnonce : ∀ p ∈ pool, p.fromAddr = tx.fromAddr → p.nonce + 1 < U64)
    (hdeb : pendingDebitSpec pool tx.fromAddr + tx.amount + tx.fee < U64) :
    addTransaction verify s pool tx =
      if ∃ p ∈ pool, p.id = tx.id then .error .alreadyInMempool
      else if ¬ verify tx.fromAddr tx.serialize tx.signature then .error .invalidSignature
      else if tx.nonce ≠ pendingNonceSpec pool (getAccountState s tx.fromAddr).2 tx.fromAddr then
        .error .invalidNonce
      else if (getAccountState s tx.fromAddr).1 <
          pendingDebitSpec pool tx.fromAddr + tx.amount + tx.fee then
        .error .insufficientFunds
      else .ok (tx :: pool) := by
  have hex : (pool.any (fun p => p.id == tx.id) = true) ↔ ∃ p ∈ pool, p.id = tx.id := by
    simp [List.any_eq_true]
  have hps := pendingState_fold_spec tx.fromAddr pool
    (getAccountState s tx.fromAddr).2 0 hnonce (by omega)
  simp only [addTransaction]
  unfold pendingState
  rw [hps]
  by_cases h1 : ∃ p ∈ pool, p.id = tx.id
  · rw [if_pos (hex.mpr h1), if_pos h1]
  · rw [if_neg (fun hc => h1 (hex.mp hc)), if_neg h1]
    by_cases h2 : verify tx.fromAddr tx.serialize tx.signature = true
    · have hv : ¬ ¬ (verify tx.fromAddr tx.serialize tx.signature = true) := fun hc => hc h2
      rw [if_neg hv, if_neg hv]
      simp only [pendingNonceSpec]
      by_cases h3 : tx.nonce =
          ((pool.filter (fun p => p.fromAddr == tx.fromAddr)).map
            (fun p => p.nonce + 1)).foldl max (getAccountState s tx.fromAddr).2
      · have hn3 : ¬ (tx.nonce ≠
            ((pool.filter (fun p => p.fromAddr == tx.fromAddr)).map
              (fun p => p.nonce + 1)).foldl max (getAccountState s tx.fromAddr).2) :=
          fun hc => hc h3
        rw [if_neg hn3, if_neg hn3]
        have hsum : u64add (u64add (0 + pendingDebitSpec pool tx.fromAddr) tx.amount) tx.fee =
            pendingDebitSpec pool tx.fromAddr + tx.amount + tx.fee := by
          unfold u64add U64 at *
          omega
        rw [hsum]
      · rw [if_pos h3, if_pos h3]
    · have hv : ¬ (verify tx.fromAddr tx.serialize tx.signature = true) := h2
      rw [if_pos hv, if_pos hv]

/-! ## Claim C3: the reorganization's mempool call order -/

/-- Counterexample for C3: on a one-block-each fork, the engine's first
mempool call is the eviction of the new chain's transactions and the
re-admission attempt comes after it — the reverse of the claimed order
(re-admit first, evict `newIds` afterwards). -/
theorem C3_counterexample :
    reorgPoolOps [blkN] [blkO] = [PoolOp.evict [cbN], PoolOp.tryAdd tO] ∧
    reorgPoolOpsClaim [blkN] [blkO] = [PoolOp.tryAdd tO, PoolOp.evict []] ∧
    reorgPoolOps [blkN] [blkO] ≠ reorgPoolOpsClaim [blkN] [blkO] :=
  ⟨by decide, by decide, by decide⟩

/-- C3 as amended: with a mempool attached, reorganization first evicts
every new-chain transaction (coinbases included) from the pool, and only
then attempts to re-admit — errors ignored — exactly the old-chain
non-coinbase transactions whose ids are not among the new-chain
transaction ids; the pool resulting from the call sequence is the fold of
the re-admissions over the pool with the evictions already applied. -/
theorem C3_amended_order (newChain oldChain : List Block) :
    reorgPoolOps newChain oldChain =
      PoolOp.evict (blocksTxs newChain) ::
        ((blocksTxs oldChain).filter
          (fun tx => !(tx.type == TxType.coinbase) &&
            !(((blocksTxs newChain).map (·.id)).contains tx.id))).map PoolOp.tryAdd ∧
    (∀ op ∈ (reorgPoolOps newChain oldChain).tail, ∃ tx, op = PoolOp.tryAdd tx ∧
      tx ∈ blocksTxs oldChain ∧ ¬ tx.type = TxType.coinbase ∧
      tx.id ∉ (blocksTxs newChain).map (·.id)) ∧
    (∀ (verify : Hash → List Nat → List Nat → Bool) (s : ChainState)
        (poolTxs : List Transaction),
      (reorgPoolOps newChain oldChain).foldl (applyPoolOp verify s) poolTxs =
        ((reorgPoolOps newChain oldChain).tail).foldl (applyPoolOp verify s)
          (removeTransactions poolTxs (blocksTxs newChain))) := by
  refine ⟨rfl, ?_, fun verify s poolTxs => rfl⟩
  intro op hop
  simp only [reorgPoolOps, List.tail_cons, List.mem_map] at hop
  obtain ⟨tx, htx, hmap⟩ := hop
  rw [List.mem_filter] at htx
  refine ⟨tx, hmap.symm, htx.1, ?_, ?_⟩
  · have h2 := htx.2
    rw [Bool.and_eq_true] at h2
    have := h2.1
    simp only [Bool.not_eq_true'] at this
    exact fun hc => by
      rw [hc] at this
      simp at this
  · have h2 := htx.2
    rw [Bool.and_eq_true] at h2
    have := h2.2
    simp only [Bool.not_eq_true'] at this
    intro hmem
    rw [List.contains_eq_any_beq] at this
    have : ¬ ∃ y ∈ (blocksTxs newChain).map (·.id), tx.id == y := by
      intro ⟨y, hy, hb⟩
      rw [List.any_eq_false] at this
      exact absurd hb (by simpa using this y hy)
    exact this ⟨tx.id, hmem, by simp⟩

/-- Witness for C3 as amended, at the concrete one-block fork. -/
theorem C3_amended_witness :
    (reorgPoolOps [blkN] [blkO] =
      PoolOp.evict (blocksTxs [blkN]) ::
        ((blocksTxs [blkO]).filter
          (fun tx => !(tx.type == TxType.coinbase) &&
            !(((blocksTxs [blkN]).map (·.id)).contains tx.id))).map PoolOp.tryAdd) ∧
    (∃ tx, PoolOp.tryAdd tO = PoolOp.tryAdd tx ∧ tx ∈ blocksTxs [blkO] ∧
      ¬ tx.type = TxType.coinbase ∧ tx.id ∉ (blocksTxs [blkN]).map (·.id)) :=
  ⟨(C3_amended_order [blkN] [blkO]).1,
   (C3_amended_order [blkN] [blkO]).2.1 (PoolOp.tryAdd tO) (by decide)⟩

/-! ## Claim C9: pre-persistence failures leave the state untouched -/

/-- The reorganization path either succeeds or fails its fork walk. -/
theorem reorganize_snd (verify : Hash → List Nat → List Nat → Bool)
    (s : ChainState) (nb : Block) :
    (reorganize verify s nb).2 = none ∨
    (reorganize verify s nb).2 = some .forkWalkFailed := by
  simp only [reorganize]
  split
  · right
    rfl
  · split
    · right
      rfl
    · split
      · left
        rfl
      · left
        rfl

/-- Every `AddBlock` call either returns with the state it was given, or
its outcome is success or one of the two post-persistence statuses. -/
theorem addBlock_cases (verify : Hash → List Nat → List Nat → Bool) (now : Int)
    (s : ChainState) (b : Block) :
    (addBlock verify now s b).1 = s ∨
    (∀ e, (addBlock verify now s b).2 = some e → isPreValidationErr e = false) := by
  simp only [addBlock]
  split
  · left
    rfl
  · split
    · left
      rfl
    · split
      · left
        rfl
      · split
        · left
          rfl
        · split
          · left
            rfl
          · split
            · left
              rfl
            · split
              · left
                rfl
              · split
                · left
                  rfl
                · split
                  · right
                    intro e he
                    simp only [Option.some.injEq] at he
                    rw [← he]
                    rfl
                  · split
                    · right
                      intro e he
                      rcases reorganize_snd verify _ b with hr | hr
                      · rw [hr] at he
                        cases he
                      · rw [hr] at he
                        simp only [Option.some.injEq] at he
                        rw [← he]
                        rfl
                    · right
                      intro e he
                      cases he

/-- C9: when `AddBlock` fails with a pre-persistence error — parent not
found, wrong height, difficulty mismatch, or any `ValidateBlock`
rejection — the store, tip, canonical index, head and mempool are exactly
as before the call. -/
theorem C9_addBlock_prevalidation_errors (verify : Hash → List Nat → List Nat → Bool)
    (now : Int) (s : ChainState) (b : Block) (e : ChainErr)
    (he : (addBlock verify now s b).2 = some e)
    (hk : isPreValidationErr e = true) :
    (addBlock verify now s b).1 = s := by
  rcases addBlock_cases verify now s b with h | h
  · exact h
  · rw [h e he] at hk
    cases hk

/-- Witness for C9: a block with an unknown parent is rejected with
`parentNotFound` and the state is returned unchanged. -/
theorem C9_witness :
    (addBlock verifyNone 0 sW dummyBlock).1 = sW ∧
    (addBlock verifyNone 0 sW dummyBlock).2 = some .parentNotFound :=
  ⟨C9_addBlock_prevalidation_errors verifyNone 0 sW dummyBlock .parentNotFound
      (by decide) (by decide),
   by decide⟩

/-- Witness for C4: an admissible transfer into an empty pool over the
empty chain is stored. -/
theorem C4_witness :
    addTransaction verifyAll emptyState [] txW =
      (if ∃ p ∈ ([] : List Transaction), p.id = txW.id then .error .alreadyInMempool
       else if ¬ verifyAll txW.fromAddr txW.serialize txW.signature then
         .error MempoolErr.invalidSignature
       else if txW.nonce ≠ pendingNonceSpec [] (getAccountState emptyState txW.fromAddr).2
           txW.fromAddr then .error .invalidNonce
       else if (getAccountState emptyState txW.fromAddr).1 <
           pendingDebitSpec [] txW.fromAddr + txW.amount + txW.fee then
         .error .insufficientFunds
       else .ok [txW]) :=
  C4_addTransaction_admission verifyAll emptyState [] txW (by simp) (by decide)

/-! ## Association-list lookup facts shared by C1 and C2 -/

/-- Looking up the key just inserted. -/
theorem lookup_cons_self {β : Type} (k : Hash) (v : β) (l : List (Hash × β)) :
    ((k, v) :: l).lookup k = some v := by
  simp [List.lookup]

/-- A fresh binding does not shadow other keys. -/
theorem lookup_cons_ne {β : Type} (k a : Hash) (v : β) (l : List (Hash × β)) (h : k ≠ a) :
    ((k, v) :: l).lookup a = l.lookup a := by
  simp [List.lookup, beq_eq_false_iff_ne.mpr (Ne.symm h)]

/-- A successful lookup comes from an entry with that key. -/
theorem lookup_some_mem {β : Type} (a : Hash) (v : β) :
    ∀ l : List (Hash × β), l.lookup a = some v → ∃ e ∈ l, e.1 = a ∧ e.2 = v := by
  intro l
  induction l with
  | nil => intro h; cases h
  | cons e es ih =>
    intro h
    rw [List.lookup] at h
    split at h
    · rename_i heq
      exact ⟨e, List.mem_cons_self e es, (beq_iff_eq.mp heq).symm, Option.some.inj h⟩
    · obtain ⟨x, hx, hk, hv⟩ := ih h
      exact ⟨x, List.mem_cons_of_mem e hx, hk, hv⟩

/-- A failed lookup means no entry has that key. -/
theorem lookup_none_keys {β : Type} (a : Hash) :
    ∀ l : List (Hash × β), l.lookup a = none → ∀ e ∈ l, e.1 ≠ a := by
  intro l
  induction l with
  | nil => intro _ e he; cases he
  | cons x xs ih =>
    intro h e he
    rw [List.lookup] at h
    split at h
    · cases h
    · rename_i heq
      rcases List.mem_cons.mp he with rfl | hmem
      · intro hc
        rw [hc] at heq
        simp at heq
      · exact ih h e hmem

/-- A present key is never looked up as absent. -/
theorem lookup_mem_isSome {β : Type} (a : Hash) :
    ∀ l : List (Hash × β), (∃ e ∈ l, e.1 = a) → l.lookup a ≠ none := by
  intro l he hn
  obtain ⟨e, hmem, hk⟩ := he
  exact lookup_none_keys a l hn e hmem hk

/-! ## Claim C1: the fork-choice rule of AddBlock -/

/-- The canonical-index rewrite loop of `reorganize` leaves every other
state component alone. -/
theorem foldl_setCanonical_fields (l : List Block) (s : ChainState) :
    (l.foldl (fun st b => setCanonical st b.header.height b.hash) s).blocks = s.blocks ∧
    (l.foldl (fun st b => setCanonical st b.header.height b.hash) s).cdf = s.cdf ∧
    (l.foldl (fun st b => setCanonical st b.header.height b.hash) s).tip = s.tip ∧
    (l.foldl (fun st b => setCanonical st b.header.height b.hash) s).pool = s.pool := by
  induction l generalizing s with
  | nil => exact ⟨rfl, rfl, rfl, rfl⟩
  | cons x xs ih =>
    simp only [List.foldl_cons]
    exact ih (setCanonical s x.header.height x.hash)

/-- Reorganization never touches the block store or the stored cumulative
difficulties. -/
theorem reorganize_fields (verify : Hash → List Nat → List Nat → Bool)
    (s : ChainState) (nb : Block) :
    (reorganize verify s nb).1.blocks = s.blocks ∧
    (reorganize verify s nb).1.cdf = s.cdf := by
  simp only [reorganize]
  split
  · exact ⟨rfl, rfl⟩
  · split
    · exact ⟨rfl, rfl⟩
    · split
      · exact (foldl_setCanonical_fields _ s).imp id (fun h => h.1)
      · exact (foldl_setCanonical_fields _ s).imp id (fun h => h.1)

/-- A successful reorganization installs the new tip. -/
theorem reorganize_tip_of_ok (verify : Hash → List Nat → List Nat → Bool)
    (s : ChainState) (nb : Block) (h : (reorganize verify s nb).2 = none) :
    (reorganize verify s nb).1.tip = some nb := by
  simp only [reorganize] at h ⊢
  split at h
  · cases h
  · split at h
    · cases h
    · split at h <;> rfl

/-- The reduced form of a fully validated `AddBlock` call: the block and
its cumulative difficulty are saved, then the fork-choice rule decides
between reorganization and plain return. -/
theorem addBlock_reduced (verify : Hash → List Nat → List Nat → Bool) (now : Int)
    (s : ChainState) (b t p : Block) (pc tc : Nat)
    (htip : s.tip = some t)
    (hts : lookupBlock s t.hash = some t)
    (hfresh : lookupBlock s b.hash = none)
    (hparent : lookupBlock s b.header.prevBlockHash = some p)
    (hheight : b.header.height = p.header.height + 1)
    (hdiff : calcNextRequiredDifficulty (some p) (getAncestorAtHeight s p) =
      some b.header.difficulty)
    (hvalid : validateBlock now b p = none)
    (hpcdf : lookupCdf s p.hash = some pc)
    (htcdf : lookupCdf s t.hash = some tc) :
    addBlock verify now s b =
      if tc < u64add pc b.header.difficulty ∨
          (u64add pc b.header.difficulty = tc ∧ b.header.prevBlockHash = t.hash) then
        reorganize verify (saveCdf (saveBlock s b) b.hash (u64add pc b.header.difficulty)) b
      else (saveCdf (saveBlock s b) b.hash (u64add pc b.header.difficulty), none) := by
  have hbt : b.hash ≠ t.hash := by
    intro hc
    rw [hc, hts] at hfresh
    cases hfresh
  have htc2 : lookupCdf (saveCdf (saveBlock s b) b.hash (u64add pc b.header.difficulty))
      t.hash = some tc := by
    unfold lookupCdf saveCdf saveBlock at *
    rw [lookup_cons_ne b.hash t.hash _ _ hbt]
    exact htcdf
  simp only [addBlock, htip, hfresh, Option.isSome_none, Bool.false_eq_true, if_false,
    hparent, hdiff, hvalid, hpcdf]
  rw [if_neg (fun hc => hc hheight), if_neg (fun hc => hc rfl)]
  rw [htc2]

/-- C1: a block that passes every validation step is persisted with
cumulative difficulty `cdf(parent) + difficulty` and returns success; it
becomes the new tip exactly when its cumulative difficulty beats the
tip's, or ties it while directly extending the tip; otherwise the state is
exactly the old one plus the stored side-chain block. -/
theorem C1_addBlock_fork_choice (verify : Hash → List Nat → List Nat → Bool) (now : Int)
    (s : ChainState) (b t p : Block) (pc tc : Nat)
    (htip : s.tip = some t)
    (hts : lookupBlock s t.hash = some t)
    (hfresh : lookupBlock s b.hash = none)
    (hparent : lookupBlock s b.header.prevBlockHash = some p)
    (hheight : b.header.height = p.header.height + 1)
    (hdiff : calcNextRequiredDifficulty (some p) (getAncestorAtHeight s p) =
      some b.header.difficulty)
    (hvalid : validateBlock now b p = none)
    (hpcdf : lookupCdf s p.hash = some pc)
    (htcdf : lookupCdf s t.hash = some tc)
    (hreorg : (tc < u64add pc b.header.difficulty ∨
        (u64add pc b.header.difficulty = tc ∧ b.header.prevBlockHash = t.hash)) →
      (reorganize verify (saveCdf (saveBlock s b) b.hash (u64add pc b.header.difficulty))
        b).2 = none) :
    (addBlock verify now s b).2 = none ∧
    lookupBlock (addBlock verify now s b).1 b.hash = some b ∧
    lookupCdf (addBlock verify now s b).1 b.hash = some (u64add pc b.header.difficulty) ∧
    ((addBlock verify now s b).1.tip = some b ↔
      (tc < u64add pc b.header.difficulty ∨
       (u64add pc b.header.difficulty = tc ∧ b.header.prevBlockHash = t.hash))) ∧
    (¬ (tc < u64add pc b.header.difficulty ∨
        (u64add pc b.header.difficulty = tc ∧ b.header.prevBlockHash = t.hash)) →
      (addBlock verify now s b).1 =
        saveCdf (saveBlock s b) b.hash (u64add pc b.header.difficulty)) := by
  have hbt : b.hash ≠ t.hash := by
    intro hc
    rw [hc, hts] at hfresh
    cases hfresh
  have hred := addBlock_reduced verify now s b t p pc tc htip hts hfresh hparent hheight
    hdiff hvalid hpcdf htcdf
  by_cases hc : tc < u64add pc b.header.difficulty ∨
      (u64add pc b.header.difficulty = tc ∧ b.header.prevBlockHash = t.hash)
  · rw [hred, if_pos hc]
    have hok := hreorg hc
    have hf := reorganize_fields verify
      (saveCdf (saveBlock s b) b.hash (u64add pc b.header.difficulty)) b
    refine ⟨hok, ?_, ?_, ?_, fun hn => absurd hc hn⟩
    · unfold lookupBlock at *
      rw [hf.1]
      exact lookup_cons_self b.hash b s.blocks
    · unfold lookupCdf at *
      rw [hf.2]
      exact lookup_cons_self b.hash _ s.cdf
    · rw [reorganize_tip_of_ok verify _ b hok]
      exact iff_of_true rfl hc
  · rw [hred, if_neg hc]
    refine ⟨rfl, lookup_cons_self b.hash b s.blocks, lookup_cons_self b.hash _ s.cdf, ?_, fun _ => rfl⟩
    show s.tip = some b ↔ _
    rw [htip]
    refine iff_of_false (fun he => ?_) hc
    exact hbt (congrArg Block.hash (Option.some.inj he)).symm

/-- Witness for C1 on the concrete scenario: `block1` ties the genesis
tip's cumulative difficulty (both 0) while directly extending it, so the
direct-extension tie-break adopts it. -/
theorem C1_witness :
    (addBlock verifyNone (gTime + 1) sGenesis block1).2 = none ∧
    (addBlock verifyNone (gTime + 1) sGenesis block1).1.tip = some block1 := by
  have h := C1_addBlock_fork_choice verifyNone (gTime + 1) sGenesis block1 genesisBlock
    genesisBlock 0 0
    (by rw [sGenesis_eval, genesisBlock_eval]; rfl)
    (by rw [sGenesis_eval, genesisBlock_eval]; decide)
    (by rw [sGenesis_eval, block1_eval]; decide)
    (by rw [sGenesis_eval, block1_eval, genesisBlock_eval]; decide)
    (by rw [block1_eval, genesisBlock_eval]; decide)
    (by rw [sGenesis_eval, block1_eval, genesisBlock_eval]; decide)
    (by rw [block1_eval, genesisBlock_eval]; decide)
    (by rw [sGenesis_eval, genesisBlock_eval]; decide)
    (by rw [sGenesis_eval, genesisBlock_eval]; decide)
    (fun _ => by rw [sGenesis_eval, block1_eval]; decide)
  refine ⟨h.1, h.2.2.2.1.mpr (Or.inr ⟨?_, ?_⟩)⟩
  · rw [block1_eval]
    decide
  · rw [block1_eval, genesisBlock_eval]
    decide

/-! ## Claim C2: cumulative difficulty along ancestry -/

/-- A block found in the store hangs under its own hash. -/
theorem lookupBlock_hash (s : ChainState) (inv : ChainInv s) (h : Hash) (blk : Block)
    (hl : lookupBlock s h = some blk) : blk.hash = h := by
  obtain ⟨e, he, hk, hv⟩ := lookup_some_mem h blk s.blocks hl
  rw [← hv, ← hk]
  exact (inv.keyHash e he).symm

/-- The invariant holds in the virgin state. -/
theorem chainInv_empty : ChainInv emptyState :=
  ⟨fun e he => absurd he (List.not_mem_nil e),
   fun e he => absurd he (List.not_mem_nil e),
   fun e he => absurd he (List.not_mem_nil e),
   fun e he => absurd he (List.not_mem_nil e),
   fun e he => absurd he (List.not_mem_nil e),
   fun _ => ⟨rfl, rfl⟩⟩

/-- The invariant transfers along states with the same store, cumulative
difficulties and a compatible tip. -/
theorem chainInv_congr (s s2 : ChainState) (hb : s2.blocks = s.blocks) (hc : s2.cdf = s.cdf)
    (ht : s2.tip = none → s.tip = none) (inv : ChainInv s) : ChainInv s2 := by
  have hlb : ∀ x, lookupBlock s2 x = lookupBlock s x := by
    intro x
    unfold lookupBlock
    rw [hb]
  have hlc : ∀ x, lookupCdf s2 x = lookupCdf s x := by
    intro x
    unfold lookupCdf
    rw [hc]
  refine ⟨?_, ?_, ?_, ?_, ?_, ?_⟩
  · rw [hb]
    exact inv.keyHash
  · rw [hb]
    intro e he
    rcases inv.prevStored e he with hz | ⟨q, hq⟩
    · exact Or.inl hz
    · exact Or.inr ⟨q, by rw [hlb]; exact hq⟩
  · rw [hb]
    intro e he
    obtain ⟨c, hcc⟩ := inv.cdfEx e he
    exact ⟨c, by rw [hlc]; exact hcc⟩
  · rw [hc]
    intro e he
    obtain ⟨blk, hblk⟩ := inv.cdfKeys e he
    exact ⟨blk, by rw [hlb]; exact hblk⟩
  · rw [hb]
    intro e he hne q hq cp cc hcp hcc
    rw [hlb] at hq
    rw [hlc] at hcp hcc
    exact inv.cdfLink e he hne q hq cp cc hcp hcc
  · intro h
    obtain ⟨h1, h2⟩ := inv.tipEmpty (ht h)
    rw [hb, hc]
    exact ⟨h1, h2⟩

/-- Inserting a freshly validated block with its cumulative difficulty
preserves the invariant. -/
theorem chainInv_insert (s : ChainState) (b p t : Block) (pc : Nat)
    (inv : ChainInv s)
    (htip : s.tip = some t)
    (hfresh : lookupBlock s b.hash = none)
    (hparent : lookupBlock s b.header.prevBlockHash = some p)
    (hpcdf : lookupCdf s p.hash = some pc) :
    ChainInv (saveCdf (saveBlock s b) b.hash (u64add pc b.header.difficulty)) := by
  have hks : ∀ e ∈ s.blocks, e.1 ≠ b.hash := lookup_none_keys b.hash s.blocks hfresh
  have hcdfks : ∀ e ∈ s.cdf, e.1 ≠ b.hash := by
    intro e he hcα
    obtain ⟨blk, hblk⟩ := inv.cdfKeys e he
    rw [hcα, hfresh] at hblk
    cases hblk
  have hpb : p.hash = b.header.prevBlockHash := lookupBlock_hash s inv _ p hparent
  have hprevne : b.header.prevBlockHash ≠ b.hash := by
    intro hcα
    rw [hcα, hfresh] at hparent
    cases hparent
  have holdprev : ∀ e ∈ s.blocks, ∀ q, lookupBlock s e.2.header.prevBlockHash = some q →
      e.2.header.prevBlockHash ≠ b.hash := by
    intro e _ q hq hcα
    rw [hcα, hfresh] at hq
    cases hq
  refine ⟨?_, ?_, ?_, ?_, ?_, ?_⟩
  · intro e he
    rcases List.mem_cons.mp he with rfl | hm
    · rfl
    · exact inv.keyHash e hm
  · intro e he
    rcases List.mem_cons.mp he with rfl | hm
    · refine Or.inr ⟨p, ?_⟩
      show ((b.hash, b) :: s.blocks).lookup b.header.prevBlockHash = some p
      rw [lookup_cons_ne _ _ _ _ (Ne.symm hprevne)]
      exact hparent
    · rcases inv.prevStored e hm with hz | ⟨q, hq⟩
      · exact Or.inl hz
      · refine Or.inr ⟨q, ?_⟩
        show ((b.hash, b) :: s.blocks).lookup e.2.header.prevBlockHash = some q
        rw [lookup_cons_ne _ _ _ _ (fun hcα => holdprev e hm q hq hcα.symm)]
        exact hq
  · intro e he
    rcases List.mem_cons.mp he with rfl | hm
    · exact ⟨u64add pc b.header.difficulty, lookup_cons_self _ _ _⟩
    · obtain ⟨c, hcc⟩ := inv.cdfEx e hm
      refine ⟨c, ?_⟩
      show ((b.hash, u64add pc b.header.difficulty) :: s.cdf).lookup e.1 = some c
      rw [lookup_cons_ne _ _ _ _ (fun hcα => hks e hm hcα.symm)]
      exact hcc
  · intro e he
    rcases List.mem_cons.mp he with rfl | hm
    · refine ⟨b, lookup_cons_self _ _ _⟩
    · obtain ⟨blk, hblk⟩ := inv.cdfKeys e hm
      refine ⟨blk, ?_⟩
      show ((b.hash, b) :: s.blocks).lookup e.1 = some blk
      rw [lookup_cons_ne _ _ _ _ (fun hcα => hcdfks e hm hcα.symm)]
      exact hblk
  · intro e he hne q hq cp cc hcp hcc
    rcases List.mem_cons.mp he with rfl | hm
    · have hq2 : lookupBlock s b.header.prevBlockHash = some q := by
        have : ((b.hash, b) :: s.blocks).lookup b.header.prevBlockHash = some q := hq
        rw [lookup_cons_ne _ _ _ _ (Ne.symm hprevne)] at this
        exact this
      have hqp : q = p := Option.some.inj (hq2.symm.trans hparent)
      subst hqp
      have hqb : q.hash ≠ b.hash := by
        rw [hpb]
        exact hprevne
      have hcp2 : lookupCdf s q.hash = some cp := by
        have : ((b.hash, u64add pc b.header.difficulty) :: s.cdf).lookup q.hash = some cp := hcp
        rw [lookup_cons_ne _ _ _ _ (Ne.symm hqb)] at this
        exact this
      have hcpc : cp = pc := Option.some.inj (hcp2.symm.trans hpcdf)
      have hccv : cc = u64add pc b.header.difficulty := by
        have : ((b.hash, u64add pc b.header.difficulty) :: s.cdf).lookup b.hash = some cc := hcc
        rw [lookup_cons_self] at this
        exact (Option.some.inj this).symm
      rw [hccv, hcpc]
    · have hpne : e.2.header.prevBlockHash ≠ b.hash := by
        rcases inv.prevStored e hm with hz | ⟨q0, hq0⟩
        · exact absurd hz hne
        · exact holdprev e hm q0 hq0
      have hq2 : lookupBlock s e.2.header.prevBlockHash = some q := by
        have : ((b.hash, b) :: s.blocks).lookup e.2.header.prevBlockHash = some q := hq
        rw [lookup_cons_ne _ _ _ _ (Ne.symm hpne)] at this
        exact this
      have hqb : q.hash ≠ b.hash := by
        rw [lookupBlock_hash s inv _ q hq2]
        exact hpne
      have hcp2 : lookupCdf s q.hash = some cp := by
        have : ((b.hash, u64add pc b.header.difficulty) :: s.cdf).lookup q.hash = some cp := hcp
        rw [lookup_cons_ne _ _ _ _ (Ne.symm hqb)] at this
        exact this
      have hcc2 : lookupCdf s e.1 = some cc := by
        have : ((b.hash, u64add pc b.header.difficulty) :: s.cdf).lookup e.1 = some cc := hcc
        rw [lookup_cons_ne _ _ _ _ (fun hcα => hks e hm hcα.symm)] at this
        exact this
      exact inv.cdfLink e hm hne q hq2 cp cc hcp2 hcc2
  · intro h
    rw [show (saveCdf (saveBlock s b) b.hash (u64add pc b.header.difficulty)).tip = s.tip
      from rfl, htip] at h
    cases h

/-- Reorganization never erases the tip. -/
theorem reorganize_tip_none (verify : Hash → List Nat → List Nat → Bool)
    (s : ChainState) (nb : Block)
    (h : (reorganize verify s nb).1.tip = none) : s.tip = none := by
  simp only [reorganize] at h
  split at h
  · exact h
  · split at h
    · exact h
    · split at h <;> cases h

/-- Block ingestion preserves the store invariant. -/
theorem chainInv_addBlock (verify : Hash → List Nat → List Nat → Bool) (now : Int)
    (s : ChainState) (b : Block) (inv : ChainInv s) :
    ChainInv (addBlock verify now s b).1 := by
  simp only [addBlock]
  split
  · exact inv
  · rename_i t htip
    split
    · exact inv
    · rename_i hns
      have hfresh : lookupBlock s b.hash = none := by
        rcases hx : lookupBlock s b.hash with _ | v
        · rfl
        · rw [hx] at hns
          simp at hns
      split
      · exact inv
      · rename_i p hparent
        split
        · exact inv
        · split
          · exact inv
          · split
            · exact inv
            · split
              · exact inv
              · split
                · exact inv
                · rename_i pc hpcdf
                  have hins := chainInv_insert s b p t pc inv htip hfresh hparent hpcdf
                  split
                  · exact hins
                  · split
                    · have hf := reorganize_fields verify
                        (saveCdf (saveBlock s b) b.hash (u64add pc b.header.difficulty)) b
                      refine chainInv_congr _ _ hf.1 hf.2 ?_ hins
                      intro hnone
                      exact reorganize_tip_none verify _ b hnone
                    · exact hins

/-- The genesis block constructor pins the parent pointer to the zero hash. -/
theorem genesisBlockOf_prev (addr : Hash) (d : Nat) (ts : Int) :
    (genesisBlockOf addr d ts).header.prevBlockHash = zeroHash := rfl

/-- Genesis installation preserves the store invariant. -/
theorem chainInv_initGenesis (s : ChainState) (addr : Hash) (d : Nat) (ts : Int)
    (inv : ChainInv s) : ChainInv (initGenesis s addr d ts).1 := by
  rcases htip : s.tip with _ | t
  · rcases hval : validateGenesis (genesisBlockOf addr d ts) with _ | e
    · have hred : (initGenesis s addr d ts).1 =
          { blocks := ((genesisBlockOf addr d ts).hash, genesisBlockOf addr d ts) :: s.blocks,
            canonical := (0, (genesisBlockOf addr d ts).hash) :: s.canonical,
            headHash := some (genesisBlockOf addr d ts).hash,
            cdf := ((genesisBlockOf addr d ts).hash, d) :: s.cdf,
            tip := some (genesisBlockOf addr d ts),
            pool := s.pool } := by
        simp only [initGenesis, htip, hval, saveHead, saveCdf, setCanonical, saveBlock]
      rw [hred]
      have hprev := genesisBlockOf_prev addr d ts
      generalize hG : genesisBlockOf addr d ts = G at hprev ⊢
      obtain ⟨hbe, hce⟩ := inv.tipEmpty htip
      refine ⟨?_, ?_, ?_, ?_, ?_, ?_⟩
      · intro e he
        rcases List.mem_cons.mp he with he1 | hm
        · rw [he1]
        · rw [hbe] at hm
          cases hm
      · intro e he
        rcases List.mem_cons.mp he with he1 | hm
        · rw [he1]
          exact Or.inl hprev
        · rw [hbe] at hm
          cases hm
      · intro e he
        rcases List.mem_cons.mp he with he1 | hm
        · rw [he1]
          exact ⟨d, lookup_cons_self _ _ _⟩
        · rw [hbe] at hm
          cases hm
      · intro e he
        rcases List.mem_cons.mp he with he1 | hm
        · rw [he1]
          exact ⟨G, lookup_cons_self _ _ _⟩
        · rw [hce] at hm
          cases hm
      · intro e he hne
        rcases List.mem_cons.mp he with he1 | hm
        · rw [he1] at hne
          exact absurd hprev hne
        · rw [hbe] at hm
          cases hm
      · intro h
        exact (Option.some_ne_none _ h).elim
    · have hred : initGenesis s addr d ts = (s, some (.validation e)) := by
        simp only [initGenesis, htip, hval]
      rw [hred]
      exact inv
  · have hred : initGenesis s addr d ts = (s, some .alreadyInitialized) := by
      simp only [initGenesis, htip]
    rw [hred]
    exact inv

/-- Every reachable state satisfies the store invariant. -/
theorem chainInv_reachable (verify : Hash → List Nat → List Nat → Bool)
    (s : ChainState) (hr : Reachable verify s) : ChainInv s := by
  induction hr with
  | empty => exact chainInv_empty
  | genesisStep s addr d ts _ ih => exact chainInv_initGenesis s addr d ts ih
  | addBlockStep s now b _ ih => exact chainInv_addBlock verify now s b ih
  | poolStep s p _ ih => exact chainInv_congr s _ rfl rfl (fun h => h) ih

/-- One parent step moves the stored cumulative difficulty up by the
child's difficulty — monotonically under the no-wrap assumption, strictly
when difficulties are positive. -/
theorem cdf_parent_step (s : ChainState) (inv : ChainInv s) (hw : CdfNoWrap s)
    (c p : Block) (hp : parentStep s c p) (hC : lookupBlock s c.hash = some c) :
    ∃ cp cc, lookupCdf s p.hash = some cp ∧ lookupCdf s c.hash = some cc ∧
      cp ≤ cc ∧ (AllDiffPos s → cp < cc) := by
  obtain ⟨e, he, hk, hv⟩ := lookup_some_mem c.hash c s.blocks hC
  obtain ⟨e2, he2, hk2, hv2⟩ := lookup_some_mem _ p s.blocks hp.2
  have hph : p.hash = c.header.prevBlockHash := lookupBlock_hash s inv _ p hp.2
  obtain ⟨cc, hcc⟩ := inv.cdfEx e he
  obtain ⟨cp, hcp⟩ := inv.cdfEx e2 he2
  rw [hk] at hcc
  rw [hk2, ← hph] at hcp
  have hlink := inv.cdfLink e he (by rw [hv]; exact hp.1) p (by rw [hv]; exact hp.2) cp cc
    (by exact hcp) (by rw [hk]; exact hcc)
  rw [hv] at hlink
  have hbound : cp + c.header.difficulty < U64 := by
    have hnw := hw e he
    rw [hv] at hnw
    unfold noWrapAt at hnw
    split at hnw
    · rename_i heq
      rw [hp.2] at heq
      cases heq
    · rename_i q heq
      have hqp : q = p := Option.some.inj (heq.symm.trans hp.2)
      subst hqp
      split at hnw
      · rename_i heq2
        rw [hcp] at heq2
        cases heq2
      · rename_i y heq2
        have hy : y = cp := Option.some.inj (heq2.symm.trans hcp)
        subst hy
        exact of_decide_eq_true hnw
  have hccv : cc = cp + c.header.difficulty := by
    rw [hlink]
    unfold u64add
    exact Nat.mod_eq_of_lt hbound
  refine ⟨cp, cc, hcp, hcc, by omega, ?_⟩
  intro hd
  have := hd e he
  rw [hv] at this
  omega

/-- Cumulative difficulty is monotone along stored ancestry: at most the
descendant's value, strictly below it when all stored difficulties are
positive. -/
theorem cdf_le_of_ancestor (s : ChainState) (inv : ChainInv s) (hw : CdfNoWrap s)
    (B C : Block) (ha : AncestorOf s B C) (hC : lookupBlock s C.hash = some C) :
    ∃ cb cc, lookupCdf s B.hash = some cb ∧ lookupCdf s C.hash = some cc ∧
      cb ≤ cc ∧ (AllDiffPos s → cb < cc) := by
  induction ha with
  | parent c p hp =>
    exact cdf_parent_step s inv hw c p hp hC
  | step b p c hbp hcp ih =>
    have hpstored : lookupBlock s p.hash = some p := by
      rw [lookupBlock_hash s inv _ p hcp.2]
      exact hcp.2
    obtain ⟨cb, cp, hcb, hcp2, hle1, hlt1⟩ := ih hpstored
    obtain ⟨cp2, cc, hcp3, hcc, hle2, hlt2⟩ := cdf_parent_step s inv hw c p hcp hC
    have : cp2 = cp := Option.some.inj (hcp3.symm.trans hcp2)
    subst this
    exact ⟨cb, cc, hcb, hcc, le_trans hle1 hle2, fun hd => lt_of_lt_of_le (hlt1 hd) hle2⟩

/-- C2 as amended: in every reachable state whose stored
cumulative-difficulty additions do not wrap modulo `2 ^ 64`, if stored
block `B` is an ancestor of stored block `C` then `cdf(B) ≤ cdf(C)`, and
strictly less whenever every stored block has nonzero difficulty; with
zero-difficulty blocks (which `InitGenesis` at difficulty 0 and the
retarget rule produce) equality is possible, so the claimed strict
inequality fails. -/
theorem C2_cdf_monotone_amended (verify : Hash → List Nat → List Nat → Bool)
    (s : ChainState) (B C : Block) (hr : Reachable verify s) (hw : CdfNoWrap s)
    (ha : AncestorOf s B C) (hC : lookupBlock s C.hash = some C) :
    ∃ cb cc, lookupCdf s B.hash = some cb ∧ lookupCdf s C.hash = some cc ∧
      cb ≤ cc ∧ (AllDiffPos s → cb < cc) :=
  cdf_le_of_ancestor s (chainInv_reachable verify s hr) hw B C ha hC

/-- Counterexample for C2 as stated: in the reachable two-block state at
difficulty 0, genesis is an ancestor of `block1`, both are stored, and
both stored cumulative difficulties are 0 — not strictly increasing. -/
theorem C2_counterexample :
    Reachable verifyNone sTwo ∧
    AncestorOf sTwo genesisBlock block1 ∧
    lookupBlock sTwo genesisBlock.hash = some genesisBlock ∧
    lookupBlock sTwo block1.hash = some block1 ∧
    lookupCdf sTwo genesisBlock.hash = some 0 ∧
    lookupCdf sTwo block1.hash = some 0 := by
  refine ⟨?_, ?_, ?_, ?_, ?_, ?_⟩
  · exact Reachable.addBlockStep sGenesis (gTime + 1) block1
      (Reachable.genesisStep emptyState minerAddr 0 gTime Reachable.empty)
  · refine AncestorOf.parent block1 genesisBlock ⟨?_, ?_⟩
    · rw [block1_eval]
      decide
    · rw [sTwo_eval, block1_eval, genesisBlock_eval]
      decide
  · rw [sTwo_eval, genesisBlock_eval]
    decide
  · rw [sTwo_eval, block1_eval]
    decide
  · rw [sTwo_eval, genesisBlock_eval]
    decide
  · rw [sTwo_eval, block1_eval]
    decide

/-- Witness for C2 as amended on the two-block scenario state. -/
theorem C2_amended_witness :
    CdfNoWrap sTwo ∧
    (∃ cb cc, lookupCdf sTwo genesisBlock.hash = some cb ∧
      lookupCdf sTwo block1.hash = some cc ∧ cb ≤ cc ∧ (AllDiffPos sTwo → cb < cc)) := by
  have hw : CdfNoWrap sTwo := by
    rw [sTwo_eval]
    decide
  refine ⟨hw, C2_cdf_monotone_amended verifyNone sTwo genesisBlock block1 ?_ hw ?_ ?_⟩
  · exact Reachable.addBlockStep sGenesis (gTime + 1) block1
      (Reachable.genesisStep emptyState minerAddr 0 gTime Reachable.empty)
  · refine AncestorOf.parent block1 genesisBlock ⟨?_, ?_⟩
    · rw [block1_eval]
      decide
    · rw [sTwo_eval, block1_eval, genesisBlock_eval]
      decide
  · rw [sTwo_eval, block1_eval]
    decide

end Chrd
